import Mathlib

/-
  Verification development for the MoarVM partial escape analysis (PEA) and
  scalar replacement pass (spesh/pea.c in the repository), together with the
  P6int representation (src/6model/reprs/P6int.c).

  The C code is shallowly embedded: heap pointers become indices into stores,
  MVM vectors become Lean lists (PUSH appends; where a vector is used as a
  stack, push = cons and pop = head, which preserves the LIFO behaviour), and
  the mutable graph state is threaded explicitly.  The instruction universe
  modelled for the analysis loop is restricted to the opcodes the claims
  exercise: sp_fastcreate, sp_materialize_bi, set, the sp_bind family, the
  argument opcodes, and a generic constructor for any other opcode without
  deopt behaviour, which the C dispatch sends to unhandled_instruction.
-/

set_option maxRecDepth 4000

namespace MoarPEA

/-- An SSA operand: original register number and SSA version
(MVMSpeshOperand.reg.orig and .i). -/
structure Operand where
  orig : Nat
  i : Nat
deriving DecidableEq

instance : Inhabited Operand := ⟨⟨0, 0⟩⟩

/-- The register kinds the pass distinguishes (MVM_reg_obj, MVM_reg_int64,
MVM_reg_num64, MVM_reg_str, MVM_reg_obi). -/
inductive RegKind where
  | obj
  | int64
  | num64
  | str
  | obi
deriving DecidableEq

/-- REPR identities distinguished by the pass.  P6opq stands for the
P6opaque representation id; other representations are collapsed into a
numbered constructor. -/
inductive ReprId where
  | P6opq
  | P6bigint
  | otherRepr (n : Nat)
deriving DecidableEq

/-- Boxed primitive classification from MVMStorageSpec.boxed_primitive. -/
inductive BoxedPrim where
  | int
  | num
  | str
  | noBox
deriving DecidableEq

/-- The part of a flattened-in STable that flattened_type_to_register_kind
consults: its REPR id and its storage spec. -/
structure FlatStable where
  reprId : ReprId
  boxedPrimitive : BoxedPrim
  bits : Nat
  isUnsigned : Bool
deriving DecidableEq

/-- One attribute of a P6opaque layout: its byte offset (from the start of
the data section) and its flattened-in type; none models a NULL entry of
flattened_stables, that is a reference-typed attribute. -/
structure AttrModel where
  offset : Nat
  flat : Option FlatStable
deriving DecidableEq

instance : Inhabited AttrModel := ⟨⟨0, none⟩⟩

/-- The part of an MVMSTable the pass consults.  intCacheIdx models the
result of MVM_intcache_type_index for the type object (none models a
negative result). -/
structure STableModel where
  reprId : ReprId
  attrs : List AttrModel
  size : Nat
  intCacheIdx : Option Nat
deriving DecidableEq

instance : Inhabited STableModel := ⟨⟨ReprId.otherRepr 0, [], 0, none⟩⟩

/-- Turns a flattened-in STable into a register type to allocate, if
possible.  Should it not be possible, returns none (the C code returns a
negative value).  If passed none (which indicates a reference type), then
returns MVM_reg_obj. -/
def flattened_type_to_register_kind (st : Option FlatStable) : Option RegKind :=
  match st with
  | some st =>
    if st.reprId = ReprId.P6bigint then
      some RegKind.obi
    else
      match st.boxedPrimitive with
      | BoxedPrim.int => if st.bits = 64 && !st.isUnsigned then some RegKind.int64 else none
      | BoxedPrim.num => if st.bits = 64 then some RegKind.num64 else none
      | BoxedPrim.str => some RegKind.str
      | BoxedPrim.noBox => none
  | none => some RegKind.obj

/-- MVMSpeshPEAAllocation.  Allocations are identified by their index in the
graph-state tracked-allocations vector; the escape_dependencies vector holds
such indices.  The C code uses that vector as a stack (MVM_VECTOR_PUSH
appends, MVM_VECTOR_POP removes the most recently pushed entry); we model it
as a list with push = cons and pop = head, which has the same LIFO
behaviour. -/
structure Allocation where
  allocatorBB : Nat
  allocatorIns : Nat
  type : STableModel
  index : Nat
  hypAttrRegs : List Nat
  bigint : Bool
  read : Bool
  irreplaceable : Bool
  escapeDeps : List Nat
deriving DecidableEq

instance : Inhabited Allocation :=
  ⟨⟨0, 0, default, 0, [], false, false, false, []⟩⟩

/-- The tracked-allocations store (gs->tracked_allocations); an allocation
pointer is modelled as a position in this list. -/
abbrev AllocStore := List Allocation

/-- Whether the allocation at index i carries the irreplaceable flag. -/
def isMarked (s : AllocStore) (i : Nat) : Bool :=
  match s[i]? with
  | some a => a.irreplaceable
  | none => false

/-- The escape-dependency list of the allocation at index i. -/
def depsOf (s : AllocStore) (i : Nat) : List Nat :=
  match s[i]? with
  | some a => a.escapeDeps
  | none => []

/-- Total number of escape-dependency edges in the store; used to bound the
fuel of the mark_irreplaceable recursion. -/
def totalDeps (s : AllocStore) : Nat :=
  (s.map (fun a => a.escapeDeps.length)).sum

mutual

/-- mark_irreplaceable: set the irreplaceable flag on the allocation, then
drain its escape-dependency stack, recursively marking every popped
dependency.  Fuel makes the mutual recursion structural; markIrreplaceable
below supplies enough fuel for the recursion never to be cut short. -/
def markIrrF : Nat → AllocStore → Nat → AllocStore
  | 0, s, _ => s
  | fuel+1, s, i =>
    match s[i]? with
    | none => s
    | some a => markDrainF fuel (s.set i { a with irreplaceable := true }) i

/-- The while loop of mark_irreplaceable: while the escape-dependency
vector is non-empty, pop an entry and recursively mark it. -/
def markDrainF : Nat → AllocStore → Nat → AllocStore
  | 0, s, _ => s
  | fuel+1, s, i =>
    match s[i]? with
    | none => s
    | some a =>
      match a.escapeDeps with
      | [] => s
      | d :: rest =>
        markDrainF fuel (markIrrF fuel (s.set i { a with escapeDeps := rest }) d) i

end

/-- mark_irreplaceable with enough fuel to run to completion. -/
def markIrreplaceable (s : AllocStore) (i : Nat) : AllocStore :=
  markIrrF (2 * totalDeps s + 2) s i

/-- Reachability through escape-dependency chains, as recorded in the
store.  Every node on a chain is a valid index of the store. -/
inductive DepReach (s : AllocStore) : Nat → Nat → Prop where
  | refl (i : Nat) : i < s.length → DepReach s i i
  | step (i j k : Nat) (a : Allocation) : s[i]? = some a → j ∈ a.escapeDeps →
      DepReach s j k → DepReach s i k

end MoarPEA

namespace P6int

/-- The P6int representation body (P6intBody): a single native integer.
MVMint64 is modelled as Int; the representation performs no arithmetic on
the value, so no wrap-around modelling is needed. -/
structure P6intBody where
  value : Int
deriving DecidableEq

/-- set_int: data->value = value. -/
def set_int (_body : P6intBody) (value : Int) : P6intBody :=
  { value := value }

/-- get_int: return data->value. -/
def get_int (body : P6intBody) : Int :=
  body.value

/-- copy_to: dest_body->value = src_body->value; returns the updated
destination body. -/
def copy_to (src : P6intBody) (dest : P6intBody) : P6intBody :=
  { dest with value := src.value }

/-- set_num: always throws; the body is never touched, so the result is
only the exception. -/
def set_num (_body : P6intBody) (_value : α) : Except String P6intBody :=
  Except.error "P6int representation cannot box a native num"

/-- get_num: always throws. -/
def get_num (_body : P6intBody) : Except String Unit :=
  Except.error "P6int representation cannot unbox to a native num"

/-- set_str: always throws. -/
def set_str (_body : P6intBody) (_value : α) : Except String P6intBody :=
  Except.error "P6int representation cannot box a native string"

/-- get_str: always throws. -/
def get_str (_body : P6intBody) : Except String Unit :=
  Except.error "P6int representation cannot unbox to a native string"

/-- get_boxed_ref: always throws, whatever REPR id is requested. -/
def get_boxed_ref (_body : P6intBody) (_reprId : Nat) : Except String Unit :=
  Except.error "P6int representation cannot unbox to other types"

end P6int

namespace MoarPEA

/-- sizeof(MVMObject): the header size subtracted from sp_bind / sp_get
offsets to obtain a data-section offset.  The concrete value is irrelevant
to the pass logic; any fixed constant is faithful. -/
def mvmObjectSize : Nat := 16

/-- The slice of MVMSpeshFacts the pass reads and writes: the known-type
and concreteness information, plus the two PEA fields (facts->pea).
knownType = some st models flags having MVM_SPESH_FACT_KNOWN_TYPE with
facts->type having STable st; concrete models MVM_SPESH_FACT_CONCRETE. -/
structure Facts where
  knownType : Option STableModel
  concrete : Bool
  peaAllocation : Option Nat
  peaDependAllocation : Option Nat
deriving DecidableEq

instance : Inhabited Facts := ⟨⟨none, false, none, none⟩⟩

/-- Modelled from the spec: the fact get/set/copy services are external to
the pass (spec section 6, consumed services).  MVM_spesh_copy_facts_resolved
copies the known-type and concreteness information of the source facts onto
the target; the PEA fields of the target are managed separately by the pass
itself (the code writes facts->pea.allocation directly both before and after
copy calls). -/
def copyFactsResolved (tgt src : Facts) : Facts :=
  { tgt with knownType := src.knownType, concrete := src.concrete }

/-- A shadow fact (ShadowFact): hypothetical extra information about an SSA
value, held separately from the real facts, keyed either by a hypothetical
register index or by a concrete (orig, version) pair. -/
structure ShadowFact where
  isHypothetical : Bool
  hypRegIdx : Nat
  concreteOrig : Nat
  concreteI : Nat
  facts : Facts
deriving DecidableEq

/-- A materialization target register record (MaterializationTarget): the
linked list is modelled as a Lean list; the C code prepends new entries at
the head, which cons reproduces exactly. -/
inductive MTarget where
  | concrete (o : Operand)
  | hyp (r : Nat)
deriving DecidableEq

/-- The transformation tags producible by the modelled analysis, with their
payloads (the corresponding members of the C union).  Instructions are
referenced by their stable identity (InsNode.id). -/
inductive TransformKind where
  | deleteFastcreate (insId : Nat) (st : STableModel)
  | unmaterializeBI (insId : Nat) (st : STableModel)
  | deleteSet (insId : Nat)
  | bindattrToSet (insId : Nat) (hypRegIdx : Nat) (targetAllocation : Option Nat)
  | materialize (priorTo : Nat)
deriving DecidableEq

/-- A planned Transformation.  The C record is arena-allocated and shared by
pointer between the per-block transformation vector and the per-allocation
materialization sets; we model the arena as a store (GraphState.transforms)
and share indices.  usedRef models the pointer into the per-block used
array that TRANSFORM_MATERIALIZE carries (t->materialize.used): the pair is
(basic block index, allocation index), dereferenced at apply time. -/
structure Transformation where
  allocation : Option Nat
  kind : TransformKind
  targets : List MTarget
  usedRef : Option (Nat × Nat)
deriving DecidableEq

instance : Inhabited Transformation :=
  ⟨⟨none, TransformKind.deleteSet 0, [], none⟩⟩

/-- Argument opcodes, exactly the set find_materialization_insertion_point
skips over. -/
inductive ArgOp where
  | argI
  | argN
  | argS
  | argO
  | argconstI
  | argconstN
  | argconstS
deriving DecidableEq

/-- The modelled instruction universe.  sp_fastcreate and sp_materialize_bi
carry (destination, size literal, spesh slot) as in the C operand layout,
sp_materialize_bi additionally the attribute offset, the source register
(operand 4) and the integer-cache index.  sp_bind covers the whole
sp_bind_* / sp_p6obind_* family: p6o records whether the opcode is a
p6obind form (whose offset literal excludes the object header), objBind
whether it binds an object reference.  argIns covers the argument opcodes.
otherIns stands for any other opcode without deopt behaviour, which the C
dispatch sends to unhandled_instruction, recording its read registers. -/
inductive Ins where
  | sp_fastcreate (dst : Operand) (size : Nat) (sslot : Nat)
  | sp_materialize_bi (dst : Operand) (size : Nat) (sslot : Nat) (offset : Nat)
      (src : Operand) (cacheIdx : Nat)
  | set (dst : Operand) (src : Operand)
  | sp_bind (p6o : Bool) (objBind : Bool) (kind : RegKind) (target : Operand)
      (offset : Nat) (src : Operand)
  | argIns (op : ArgOp) (reads : List Operand)
  | otherIns (writes : List Operand) (reads : List Operand)
deriving DecidableEq

/-- The read-register operands of an instruction (the operands whose rw
mask is MVM_operand_read_reg). -/
def readOperands : Ins → List Operand
  | Ins.sp_fastcreate _ _ _ => []
  | Ins.sp_materialize_bi _ _ _ _ src _ => [src]
  | Ins.set _ src => [src]
  | Ins.sp_bind _ _ _ target _ src => [target, src]
  | Ins.argIns _ reads => reads
  | Ins.otherIns _ reads => reads

/-- Whether an instruction is one of the argument opcodes arg_i, arg_n,
arg_s, arg_o, argconst_i, argconst_n, argconst_s. -/
def isArgIns : Ins → Bool
  | Ins.argIns _ _ => true
  | _ => false

/-- An instruction node in a basic block, with a stable identity standing
for the C instruction pointer. -/
structure InsNode where
  id : Nat
  ins : Ins
deriving DecidableEq

/-- A basic block.  Its identity (the C pointer, and also bb->idx, which the
spesh graph builder assigns in linear order) is its position in
SpeshGraph.bbs; preds and succs hold such positions; rpoIdx is bb->rpo_idx. -/
structure BasicBlock where
  rpoIdx : Nat
  preds : List Nat
  succs : List Nat
  instructions : List InsNode
deriving DecidableEq

instance : Inhabited BasicBlock := ⟨⟨0, [], [], []⟩⟩

/-- MVMSpeshPEAMaterializeInfo: a deopt materialization recipe. -/
structure MaterializeInfo where
  stableSslot : Nat
  attrRegs : List Nat
deriving DecidableEq

/-- MVMSpeshPEADeoptPoint: maps a deopt index to a materialize-info index
and a target register. -/
structure DeoptPointEntry where
  deoptPointIdx : Nat
  materializeInfoIdx : Nat
  targetReg : Nat
deriving DecidableEq

/-- The SSA graph: basic blocks in linear order, the reverse-postorder
sequence delivered by the external graph service (positions into bbs), the
per-register facts table (facts[orig][version]), the spesh slots, and the
two PEA deopt side tables.  versions models the external SSA versioning
service (current version per original register); nextIns and nextReg model
the external instruction-allocation and unique-register services. -/
structure SpeshGraph where
  bbs : List BasicBlock
  rpo : List Nat
  facts : List (List Facts)
  speshSlots : List STableModel
  versions : List Nat
  nextIns : Nat
  nextReg : Nat
  deoptMaterializeInfo : List MaterializeInfo
  deoptPoint : List DeoptPointEntry
deriving DecidableEq

/-- MVM_spesh_get_facts. -/
def getFacts (g : SpeshGraph) (o : Operand) : Facts :=
  (g.facts.getD o.orig []).getD o.i default

/-- Writing one element of a list, extending with defaults if the index is
beyond the end (MVM_VECTOR_ENSURE_SIZE zeroes fresh capacity). -/
def listSetD (l : List α) (i : Nat) (x : α) (d : α) : List α :=
  if i < l.length then l.set i x
  else (l ++ List.replicate (i + 1 - l.length) d).set i x

/-- Writing the facts of an operand back into the graph. -/
def setFacts (g : SpeshGraph) (o : Operand) (f : Facts) : SpeshGraph :=
  { g with facts := g.facts.set o.orig ((g.facts.getD o.orig []).set o.i f) }

/-- State held per allocation per basic block (BBAllocationState).  The
used array is none while the C pointer is NULL; counts are bytes
(MVMuint8), normally 0 or 1. -/
structure BBAllocState where
  seen : Bool
  used : Option (List Nat)
  materializations : List Nat
deriving DecidableEq

instance : Inhabited BBAllocState := ⟨⟨false, none, []⟩⟩

/-- State held per basic block (BBState).  alloc_state is modelled as a
total map with zeroed default: MVM_VECTOR_ENSURE_SIZE zero-fills fresh
capacity and the C code indexes capacity directly. -/
structure BBState where
  allocState : List BBAllocState
  transformations : List Nat
deriving DecidableEq

instance : Inhabited BBState := ⟨⟨[], []⟩⟩

/-- The whole-pass workspace (GraphState).  attrRegs maps hypothetical
register indices to concrete register numbers once allocated. -/
structure GraphState where
  allocs : AllocStore
  latestHypReg : Nat
  attrRegs : List Nat
  bbStates : List BBState
  shadowFacts : List ShadowFact
  trackedRegisters : List (Operand × Nat)
  transforms : List Transformation
  rpo : List Nat
deriving DecidableEq

/-- Reads the per-allocation state of a basic block (zeroed default models
unwritten capacity). -/
def getAState (gs : GraphState) (bbIdx allocIdx : Nat) : BBAllocState :=
  ((gs.bbStates.getD bbIdx default).allocState.getD allocIdx default)

/-- Writes the per-allocation state of a basic block, growing the state
vector as MVM_VECTOR_ENSURE_SIZE would. -/
def setAState (gs : GraphState) (bbIdx allocIdx : Nat) (st : BBAllocState) : GraphState :=
  let bb := gs.bbStates.getD bbIdx default
  let bb2 := { bb with allocState := listSetD bb.allocState allocIdx st default }
  { gs with bbStates := gs.bbStates.set bbIdx bb2 }

/-- add_tracked_register: push an (operand, allocation) pair. -/
def addTrackedRegister (gs : GraphState) (reg : Operand) (allocIdx : Nat) : GraphState :=
  { gs with trackedRegisters := gs.trackedRegisters ++ [(reg, allocIdx)] }

/-- mark_allocation_seen: ensure capacity for the allocation index and set
the seen flag in the current basic block state. -/
def markAllocationSeen (gs : GraphState) (bbIdx allocIdx : Nat) : GraphState :=
  setAState gs bbIdx allocIdx { getAState gs bbIdx allocIdx with seen := true }

/-- get_num_attributes: attribute count of the allocation type. -/
def getNumAttributes (a : Allocation) : Nat :=
  a.type.attrs.length

/-- get_used_state: ensure the per-block used array for the allocation is
allocated (calloc of one byte per attribute when the pointer is NULL). -/
def ensureUsedState (gs : GraphState) (bbIdx allocIdx : Nat) : GraphState :=
  let st := getAState gs bbIdx allocIdx
  match st.used with
  | some _ => gs
  | none =>
    setAState gs bbIdx allocIdx
      { st with used := some (List.replicate (getNumAttributes (gs.allocs.getD allocIdx default)) 0) }

/-- Modelled from the spec: MVM_p6opaque_offset_to_attr_idx is an external
object-model query (spec section 6: given an STable, enumerate per-attribute
byte offsets); it maps a byte offset back to the attribute index holding
that offset. -/
def offsetToAttrIdx (st : STableModel) (offset : Nat) : Nat :=
  st.attrs.findIdx (fun a => a.offset = offset)

/-- attribute_offset_to_reg: the hypothetical register of the attribute at
the given object offset. -/
def attributeOffsetToReg (a : Allocation) (offset : Nat) : Nat :=
  a.hypAttrRegs.getD (offsetToAttrIdx a.type offset) 0

/-- mark_attribute_written. -/
def markAttributeWritten (gs : GraphState) (bbIdx allocIdx offset : Nat) : GraphState :=
  let gs := ensureUsedState gs bbIdx allocIdx
  let st := getAState gs bbIdx allocIdx
  let idx := offsetToAttrIdx (gs.allocs.getD allocIdx default).type offset
  match st.used with
  | some u => setAState gs bbIdx allocIdx { st with used := some (u.set idx 1) }
  | none => gs

/-- allocation_tracked: must have an allocation record, must not be marked
irreplaceable, and must not have been materialized already in this block
(the C test index >= allocated-capacity collapses into the zeroed default
of the total-map model). -/
def allocationTracked (gs : GraphState) (bbIdx : Nat) (alloc : Option Nat) : Bool :=
  match alloc with
  | none => false
  | some ai =>
    match gs.allocs[ai]? with
    | none => false
    | some a => !a.irreplaceable && (getAState gs bbIdx a.index).materializations.isEmpty

/-- get_shadow_facts_h: first shadow fact registered for the hypothetical
register index, if any. -/
def getShadowFactsH (gs : GraphState) (idx : Nat) : Option Facts :=
  match gs.shadowFacts.find? (fun sf => sf.isHypothetical && sf.hypRegIdx = idx) with
  | some sf => some sf.facts
  | none => none

/-- get_shadow_facts_c. -/
def getShadowFactsC (gs : GraphState) (o : Operand) : Option Facts :=
  match gs.shadowFacts.find? (fun sf =>
      !sf.isHypothetical && sf.concreteOrig = o.orig && sf.concreteI = o.i) with
  | some sf => some sf.facts
  | none => none

/-- create_shadow_facts_h: push a zeroed shadow fact for the hypothetical
register if none exists yet. -/
def createShadowFactsH (gs : GraphState) (idx : Nat) : GraphState :=
  match getShadowFactsH gs idx with
  | some _ => gs
  | none =>
    { gs with shadowFacts := gs.shadowFacts ++ [⟨true, idx, 0, 0, default⟩] }

/-- Updating the facts stored in the first shadow fact for a hypothetical
register (writes through the pointer returned by create_shadow_facts_h). -/
def updateShadowFactsH (gs : GraphState) (idx : Nat) (f : Facts → Facts) : GraphState :=
  let n := gs.shadowFacts.findIdx (fun sf => sf.isHypothetical && sf.hypRegIdx = idx)
  match gs.shadowFacts[n]? with
  | some sf => { gs with shadowFacts := gs.shadowFacts.set n { sf with facts := f sf.facts } }
  | none => gs

/-- add_transform_for_bb: append the transformation (by identity) to the
per-block plan. -/
def addTransformForBB (gs : GraphState) (bbIdx : Nat) (tid : Nat) : GraphState :=
  let bb := gs.bbStates.getD bbIdx default
  let bb2 := { bb with transformations := bb.transformations ++ [tid] }
  { gs with bbStates := gs.bbStates.set bbIdx bb2 }

/-- Record a materialization transform in the per-allocation state of the
block (MVM_VECTOR_PUSH onto the materializations vector). -/
def pushMaterialization (gs : GraphState) (bbIdx allocIdx : Nat) (tid : Nat) : GraphState :=
  let st := getAState gs bbIdx allocIdx
  setAState gs bbIdx allocIdx { st with materializations := st.materializations ++ [tid] }

/-- Whether a materialization target is a concrete register with the same
original register and version as the given operand (the scan condition of
add_materialization_target_if_missing). -/
def targetMatches (mt : MTarget) (user : Operand) : Bool :=
  match mt with
  | MTarget.concrete o => o.orig = user.orig && o.i = user.i
  | MTarget.hyp _ => false

/-- add_materialization_target_if_missing: do nothing if a concrete target
with the same original register and version is already on the list,
otherwise prepend the register as a concrete target
(add_materialization_target_c prepends at the head). -/
def addMaterializationTargetIfMissing (t : Transformation) (user : Operand) : Transformation :=
  if t.targets.any (fun mt => targetMatches mt user) then
    t
  else
    { t with targets := MTarget.concrete user :: t.targets }

/-- handle_materialized_usages: for every read register of the instruction
whose facts alias a non-irreplaceable tracked allocation, append the
consumer register to the target list of every materialization active for
that allocation in this block. -/
def handleMaterializedUsages (g : SpeshGraph) (gs : GraphState) (bbIdx : Nat)
    (reads : List Operand) : GraphState :=
  reads.foldl (fun gs user =>
    match (getFacts g user).peaAllocation with
    | none => gs
    | some ai =>
      match gs.allocs[ai]? with
      | none => gs
      | some a =>
        if !a.irreplaceable then
          (getAState gs bbIdx a.index).materializations.foldl (fun gs tid =>
            match gs.transforms[tid]? with
            | none => gs
            | some t =>
              { gs with transforms :=
                  gs.transforms.set tid (addMaterializationTargetIfMissing t user) }) gs
        else gs) gs

/-- in_branch inner walk: from position i in the reverse postorder, keep a
running branch depth; entering a node other than the base subtracts
(num_pred - 1), finding the checked node answers by depth being non-zero,
and passing a node adds (num_succ - 1).  Falling off the end of the walk
answers true (complex topology, suppose a branch). -/
def inBranchLoop (g : SpeshGraph) (gs : GraphState) (base check : Nat) (i : Nat)
    (depth : Int) : Bool :=
  if _h : i < g.bbs.length then
    let cur := gs.rpo.getD i 0
    let depth2 := if cur ≠ base then
        depth - (((g.bbs.getD cur default).preds.length : Int) - 1)
      else depth
    if cur = check then
      decide (depth2 ≠ 0)
    else
      inBranchLoop g gs base check (i + 1)
        (depth2 + (((g.bbs.getD cur default).succs.length : Int) - 1))
  else
    true
termination_by g.bbs.length - i

/-- in_branch: walk the reverse postorder from the rpo index of the base
(allocating) block. -/
def inBranch (g : SpeshGraph) (gs : GraphState) (base check : Nat) : Bool :=
  inBranchLoop g gs base check (g.bbs.getD base default).rpoIdx 0

/-- worth_materializing: the object was read, or boxes a big integer, or is
being materialized in a branch relative to its allocating block. -/
def worthMaterializing (g : SpeshGraph) (gs : GraphState) (bbIdx : Nat) (ai : Nat) : Bool :=
  let alloc := gs.allocs.getD ai default
  alloc.read || alloc.bigint || inBranch g gs alloc.allocatorBB bbIdx

/-- materialize_attributes: go through the attributes of the materialized
object; any attribute whose shadow facts alias a tracked allocation gets
its own materialization transform (targeting the hypothetical attribute
register), recursively.  The recursion terminates in C because recording a
materialization makes allocation_tracked false; fuel (one unit per tracked
allocation plus one) makes it structural here. -/
def materializeAttributes (g : SpeshGraph) (bbIdx insId : Nat) :
    Nat → GraphState → Nat → GraphState
  | 0, gs, _ => gs
  | fuel+1, gs, objAi =>
    ((gs.allocs.getD objAi default).hypAttrRegs).foldl (fun gs hypReg =>
      match getShadowFactsH gs hypReg with
      | none => gs
      | some sf =>
        if allocationTracked gs bbIdx sf.peaAllocation then
          match sf.peaAllocation with
          | none => gs
          | some attrAi =>
            let aIndex := (gs.allocs.getD attrAi default).index
            let gs := ensureUsedState gs bbIdx attrAi
            let tid := gs.transforms.length
            let tran : Transformation :=
              { allocation := some attrAi, kind := TransformKind.materialize insId,
                targets := [MTarget.hyp hypReg], usedRef := some (bbIdx, attrAi) }
            let gs := { gs with transforms := gs.transforms ++ [tran] }
            let gs := pushMaterialization gs bbIdx aIndex tid
            let gs := materializeAttributes g bbIdx insId fuel gs attrAi
            addTransformForBB gs bbIdx tid
        else gs) gs

/-- real_object_required: if the operand aliases a tracked-and-replaceable
allocation, either plan a materialization (when allowed and worthwhile),
recursively materializing tracked attributes, or mark the allocation
irreplaceable. -/
def realObjectRequired (g : SpeshGraph) (gs : GraphState) (bbIdx insId : Nat)
    (o : Operand) (canMaterialize : Bool) : GraphState :=
  let target := getFacts g o
  match target.peaAllocation with
  | none => gs
  | some ai =>
    if allocationTracked gs bbIdx (some ai) then
      let worthwhile := if canMaterialize then worthMaterializing g gs bbIdx ai else false
      if canMaterialize && worthwhile then
        let aIndex := (gs.allocs.getD ai default).index
        let gs := ensureUsedState gs bbIdx ai
        let tid := gs.transforms.length
        let tran : Transformation :=
          { allocation := some ai, kind := TransformKind.materialize insId,
            targets := [MTarget.concrete o], usedRef := some (bbIdx, ai) }
        let gs := { gs with transforms := gs.transforms ++ [tran] }
        let gs := pushMaterialization gs bbIdx aIndex tid
        let gs := materializeAttributes g bbIdx insId (gs.allocs.length + 1) gs ai
        addTransformForBB gs bbIdx tid
      else
        { gs with allocs := markIrreplaceable gs.allocs ai }
    else gs

/-- unhandled_instruction: anything an unknown instruction reads requires
the real object. -/
def unhandledInstruction (g : SpeshGraph) (gs : GraphState) (bbIdx insId : Nat)
    (reads : List Operand) : GraphState :=
  reads.foldl (fun gs o => realObjectRequired g gs bbIdx insId o true) gs

/-- The attribute walk of try_track_allocation: check every attribute kind
is handled, assigning one fresh hypothetical register index per attribute
from the running counter, and noting whether any attribute boxes a big
integer.  On a failing attribute the C code returns NULL after having
already consumed counter values for the attributes before it; the returned
counter reflects that. -/
def assignAttrRegs : List AttrModel → Nat → Option (List Nat × Bool) × Nat
  | [], ctr => (some ([], false), ctr)
  | a :: rest, ctr =>
    match flattened_type_to_register_kind a.flat with
    | none => (none, ctr)
    | some k =>
      match assignAttrRegs rest (ctr + 1) with
      | (none, c2) => (none, c2)
      | (some (regs, bi), c2) => (some (ctr :: regs, bi || decide (k = RegKind.obi)), c2)

/-- try_track_allocation: track a fresh allocation if the STable is a
P6opaque whose attributes all map to handled register kinds; on success
record the allocating instruction and block, push onto the tracked vector,
add the result register to the tracked-register table, and mark the
allocation seen in the current block. -/
def tryTrackAllocation (gs : GraphState) (bbIdx insId : Nat) (resultReg : Operand)
    (st : STableModel) : Option Nat × GraphState :=
  if st.reprId = ReprId.P6opq then
    match assignAttrRegs st.attrs gs.latestHypReg with
    | (none, c2) => (none, { gs with latestHypReg := c2 })
    | (some (regs, bi), c2) =>
      let idx := gs.allocs.length
      let alloc : Allocation :=
        { allocatorBB := bbIdx, allocatorIns := insId, type := st, index := idx,
          hypAttrRegs := regs, bigint := bi, read := false, irreplaceable := false,
          escapeDeps := [] }
      let gs := { gs with latestHypReg := c2, allocs := gs.allocs ++ [alloc] }
      let gs := addTrackedRegister gs resultReg idx
      let gs := markAllocationSeen gs bbIdx idx
      (some idx, gs)
  else
    (none, gs)

/-- The per-predecessor accumulation of setup_bb_state for one allocation
index: byte counts of attribute writes, the deduplicated union of
materialization transforms, the number of predecessors that materialized,
the seen flag, and the number of applicable (seen) predecessors. -/
structure MergeAcc where
  counts : List Nat
  distinct : List Nat
  numMaterialized : Nat
  seen : Bool
  applicable : Nat
deriving DecidableEq

/-- One predecessor step of the merge: only predecessors that have seen the
allocation contribute; their used bytes are added (MVMuint8 arithmetic,
modulo 256), their materializations are unioned preserving first-seen
order, and the predecessor counts as applicable. -/
def mergePredStep (bbStates : List BBState) (i : Nat) (acc : MergeAcc)
    (predIdx : Nat) : MergeAcc :=
  let aState := (bbStates.getD predIdx default).allocState.getD i default
  if aState.seen then
    { counts :=
        match aState.used with
        | some predUsed => acc.counts.zipWith (fun c p => (c + p) % 256) predUsed
        | none => acc.counts
      distinct := aState.materializations.foldl
        (fun d m => if m ∈ d then d else d ++ [m]) acc.distinct
      numMaterialized := acc.numMaterialized +
        (if aState.materializations.isEmpty then 0 else 1)
      seen := true
      applicable := acc.applicable + 1 }
  else acc

/-- The whole predecessor walk of setup_bb_state for one allocation. -/
def mergePreds (bbStates : List BBState) (preds : List Nat) (i numAttrs : Nat) : MergeAcc :=
  preds.foldl (mergePredStep bbStates i) ⟨List.replicate numAttrs 0, [], 0, false, 0⟩

/-- The per-allocation body of setup_bb_state: merge the predecessors; on an
attribute written by some but not all applicable predecessors, mark the
allocation irreplaceable and skip the rest of its merge state (the C loop
normalizes consistent counts to 1 in place and discards the array on the
first inconsistent attribute); otherwise adopt the normalized used bytes
and the union of materializations, and mark irreplaceable anyway when only
some predecessors materialized. -/
def setupOneAlloc (bbStates : List BBState) (preds : List Nat) (allocs : AllocStore)
    (i : Nat) : BBAllocState × AllocStore :=
  let numAttrs := getNumAttributes (allocs.getD i default)
  let acc := mergePreds bbStates preds i numAttrs
  if acc.counts.any (fun c => decide (c ≠ 0) && decide (c ≠ acc.applicable)) then
    ({ seen := acc.seen, used := none, materializations := [] },
     markIrreplaceable allocs i)
  else
    ({ seen := acc.seen,
       used := some (acc.counts.map (fun c => if c = 0 then 0 else 1)),
       materializations := acc.distinct },
     if decide (acc.numMaterialized ≠ 0) && decide (acc.numMaterialized ≠ acc.applicable) then
       markIrreplaceable allocs i
     else allocs)

/-- The loop of setup_bb_state over the tracked-allocation indices,
threading the allocation store through the transitive markings. -/
def setupAllocLoop (bbStates : List BBState) (preds : List Nat) :
    AllocStore → List Nat → List BBAllocState × AllocStore
  | allocs, [] => ([], allocs)
  | allocs, i :: rest =>
    let (st, allocs2) := setupOneAlloc bbStates preds allocs i
    let (sts, allocs3) := setupAllocLoop bbStates preds allocs2 rest
    (st :: sts, allocs3)

/-- setup_bb_state: build the entry allocation state of a basic block from
its predecessors.  The transformations vector of the block is untouched. -/
def setupBBState (gs : GraphState) (preds : List Nat) (bbIdx : Nat) : GraphState :=
  let (sts, allocs2) :=
    setupAllocLoop gs.bbStates preds gs.allocs (List.range gs.allocs.length)
  let bb := gs.bbStates.getD bbIdx default
  let bb2 := { bb with allocState := sts }
  { gs with allocs := allocs2, bbStates := gs.bbStates.set bbIdx bb2 }

/-- The claim-side notion of P for the merge: the predecessors that have
seen the allocation. -/
def seenPreds (bbStates : List BBState) (preds : List Nat) (i : Nat) : List Nat :=
  preds.filter (fun p => ((bbStates.getD p default).allocState.getD i default).seen)

/-- The claim-side per-predecessor attribute-write indicator: the byte of
the used array of predecessor p for attribute j (0 when the array was
never allocated). -/
def usedEntry (bbStates : List BBState) (p i j : Nat) : Nat :=
  match ((bbStates.getD p default).allocState.getD i default).used with
  | some u => u.getD j 0
  | none => 0

/-- The claim-side per-attribute write count over the predecessors that
have seen the allocation. -/
def writeCount (bbStates : List BBState) (preds : List Nat) (i j : Nat) : Nat :=
  ((seenPreds bbStates preds i).map (fun p => usedEntry bbStates p i j)).sum

/-- find_materialization_insertion_point: walk the instruction and its
predecessors (the list holds the anchor first, then each prev in turn)
until a non-argument opcode is found; none models the MVM_oops panic hit
when the walk runs off the start of the block. -/
def find_materialization_insertion_point : List InsNode → Option InsNode
  | [] => none
  | n :: prev =>
    if isArgIns n.ins then find_materialization_insertion_point prev else some n

/-- The claim-side specification of the insertion-point walk, used to
compare against the implementation: drop the longest argument-opcode run
and take what follows. -/
def insertionPointSpec (chain : List InsNode) : Option InsNode :=
  (chain.dropWhile (fun n => isArgIns n.ins)).head?

/-- The anchor instruction together with its predecessors in walk order:
the instructions of the block up to and including the anchor, reversed. -/
def prevChain (instrs : List InsNode) (insId : Nat) : List InsNode :=
  ((instrs.takeWhile (fun n => n.id ≠ insId)) ++
    (instrs.dropWhile (fun n => n.id ≠ insId)).take 1).reverse

/-- MVM_spesh_manipulate_get_current_version (modelled from the spec: the
SSA versioning service). -/
def getCurrentVersion (g : SpeshGraph) (orig : Nat) : Nat :=
  g.versions.getD orig 0

/-- MVM_spesh_manipulate_new_version (modelled from the spec: the SSA
versioning service): allocate a fresh version of an original register. -/
def newVersion (g : SpeshGraph) (orig : Nat) : SpeshGraph × Operand :=
  let v := g.versions.getD orig 0 + 1
  ({ g with versions := listSetD g.versions orig v 0 }, ⟨orig, v⟩)

/-- MVM_spesh_manipulate_get_unique_reg (modelled from the spec: the
unique-register allocation service; the register kind does not affect the
identity). -/
def getUniqueReg (g : SpeshGraph) : SpeshGraph × Nat :=
  ({ g with nextReg := g.nextReg + 1 }, g.nextReg)

/-- allocate_concrete_registers: give every hypothetical attribute register
of the allocation a freshly allocated concrete register. -/
def allocateConcreteRegisters (g : SpeshGraph) (gs : GraphState) (ai : Nat) :
    SpeshGraph × GraphState :=
  (gs.allocs.getD ai default).hypAttrRegs.foldl
    (fun (acc : SpeshGraph × GraphState) hypIdx =>
      let (g2, r) := getUniqueReg acc.1
      (g2, { acc.2 with attrRegs := listSetD acc.2.attrRegs hypIdx r 0 }))
    (g, gs)

/-- Delete the instruction with the given identity from the given block
(MVM_spesh_manipulate_delete_ins; use-list bookkeeping is external). -/
def deleteInsFromBB (g : SpeshGraph) (bbIdx insId : Nat) : SpeshGraph :=
  match g.bbs[bbIdx]? with
  | none => g
  | some bb =>
    let bb2 := { bb with instructions := bb.instructions.filter (fun n => n.id ≠ insId) }
    { g with bbs := g.bbs.set bbIdx bb2 }

/-- Replace the body of the instruction with the given identity. -/
def replaceIns (g : SpeshGraph) (bbIdx insId : Nat) (newIns : Ins) : SpeshGraph :=
  match g.bbs[bbIdx]? with
  | none => g
  | some bb =>
    let newInstrs := bb.instructions.map
      (fun n => if n.id = insId then { n with ins := newIns } else n)
    let bb2 := { bb with instructions := newInstrs }
    { g with bbs := g.bbs.set bbIdx bb2 }

/-- Insert a node immediately before the instruction with the given
identity (MVM_spesh_manipulate_insert_ins after the anchor predecessor). -/
def insertBeforeIns (g : SpeshGraph) (bbIdx anchorId : Nat) (node : InsNode) : SpeshGraph :=
  match g.bbs[bbIdx]? with
  | none => g
  | some bb =>
    let newInstrs := bb.instructions.takeWhile (fun n => n.id ≠ anchorId) ++ [node] ++
      bb.instructions.dropWhile (fun n => n.id ≠ anchorId)
    let bb2 := { bb with instructions := newInstrs }
    { g with bbs := g.bbs.set bbIdx bb2 }

/-- Find the body of the instruction with the given identity in a block. -/
def findIns (g : SpeshGraph) (bbIdx insId : Nat) : Option Ins :=
  match (g.bbs.getD bbIdx default).instructions.find? (fun n => n.id = insId) with
  | some n => some n.ins
  | none => none

/-- resolve_materialization_target: a hypothetical target resolves through
attr_regs to the current version of the allocated register. -/
def resolveMaterializationTarget (g : SpeshGraph) (gs : GraphState)
    (t : MTarget) : Operand :=
  match t with
  | MTarget.hyp r =>
    let orig := gs.attrRegs.getD r 0
    ⟨orig, getCurrentVersion g orig⟩
  | MTarget.concrete o => o

/-- emit_materialization: a big integer boxing with a single attribute
materializes through sp_materialize_bi; otherwise an sp_fastcreate is
emitted followed by one bind per already-written attribute.  In the C the
int_cache_type_idx variable is an MVMuint32, so its >= 0 guard is always
true and the sp_materialize_bi path does not depend on the integer-cache
lookup succeeding; a failed lookup (-1) reaches the instruction operand as
the wrapped unsigned value 4294967295.  All emissions are placed
immediately before the insertion point found for the anchor. -/
def emitMaterialization (g : SpeshGraph) (gs : GraphState) (bbIdx pointId : Nat)
    (target : Operand) (ai : Nat) (used : List Nat) : SpeshGraph :=
  let a := gs.allocs.getD ai default
  let st := a.type
  let numAttrs := st.attrs.length
  if a.bigint && decide (numAttrs = 1) then
    let srcOrig := gs.attrRegs.getD (a.hypAttrRegs.getD 0 0) 0
    let src : Operand := ⟨srcOrig, getCurrentVersion g srcOrig⟩
    let sslot := g.speshSlots.length
    let g := { g with speshSlots := g.speshSlots ++ [st] }
    let node : InsNode :=
      ⟨g.nextIns, Ins.sp_materialize_bi target st.size sslot
        (mvmObjectSize + (st.attrs.getD 0 default).offset) src
        (st.intCacheIdx.getD 4294967295)⟩
    let g := { g with nextIns := g.nextIns + 1 }
    insertBeforeIns g bbIdx pointId node
  else
    let sslot := g.speshSlots.length
    let g := { g with speshSlots := g.speshSlots ++ [st] }
    let node : InsNode := ⟨g.nextIns, Ins.sp_fastcreate target st.size sslot⟩
    let g := { g with nextIns := g.nextIns + 1 }
    let g := insertBeforeIns g bbIdx pointId node
    (List.range numAttrs).foldl (fun g attrIdx =>
      if used.getD attrIdx 0 ≠ 0 then
        let kind := (flattened_type_to_register_kind
          ((st.attrs.getD attrIdx default).flat)).getD RegKind.obj
        let srcOrig := gs.attrRegs.getD (a.hypAttrRegs.getD attrIdx 0) 0
        let src : Operand := ⟨srcOrig, getCurrentVersion g srcOrig⟩
        let bindNode : InsNode :=
          ⟨g.nextIns, Ins.sp_bind false (kind = RegKind.obj) kind target
            (mvmObjectSize + (st.attrs.getD attrIdx default).offset) src⟩
        let g := { g with nextIns := g.nextIns + 1 }
        insertBeforeIns g bbIdx pointId bindNode
      else g) g

/-- apply_transform: refuse to act for an allocation discovered to be
irreplaceable, otherwise realize the planned edit. -/
def applyTransform (g : SpeshGraph) (gs : GraphState) (bbIdx tid : Nat) :
    SpeshGraph × GraphState :=
  match gs.transforms[tid]? with
  | none => (g, gs)
  | some t =>
    let skip :=
      match t.allocation with
      | some ai => (gs.allocs.getD ai default).irreplaceable
      | none => false
    if skip then (g, gs)
    else
      match t.kind with
      | TransformKind.deleteFastcreate insId _st =>
        match t.allocation with
        | some ai =>
          let (g, gs) := allocateConcreteRegisters g gs ai
          (deleteInsFromBB g bbIdx insId, gs)
        | none => (g, gs)
      | TransformKind.unmaterializeBI insId _st =>
        match t.allocation with
        | some ai =>
          let (g, gs) := allocateConcreteRegisters g gs ai
          let a := gs.allocs.getD ai default
          let (g, dst) := newVersion g (gs.attrRegs.getD (a.hypAttrRegs.getD 0 0) 0)
          match findIns g bbIdx insId with
          | some (Ins.sp_materialize_bi _ _ _ _ src _) =>
            (replaceIns g bbIdx insId (Ins.set dst src), gs)
          | _ => (g, gs)
        | none => (g, gs)
      | TransformKind.deleteSet insId =>
        (deleteInsFromBB g bbIdx insId, gs)
      | TransformKind.bindattrToSet insId hypRegIdx targetAllocation =>
        let targetReplaced :=
          match targetAllocation with
          | some tai => !(gs.allocs.getD tai default).irreplaceable
          | none => false
        if targetReplaced then
          (deleteInsFromBB g bbIdx insId, gs)
        else
          let (g, dst) := newVersion g (gs.attrRegs.getD hypRegIdx 0)
          match findIns g bbIdx insId with
          | some (Ins.sp_bind _ _ _ _ _ src) =>
            (replaceIns g bbIdx insId (Ins.set dst src), gs)
          | _ => (g, gs)
      | TransformKind.materialize priorTo =>
        match t.targets with
        | [] => (g, gs)
        | initialTarget :: aliasTargets =>
          match t.allocation with
          | none => (g, gs)
          | some ai =>
            let used :=
              match t.usedRef with
              | some (b, a2) => (getAState gs b a2).used.getD []
              | none => []
            let targetReg := resolveMaterializationTarget g gs initialTarget
            match find_materialization_insertion_point
                (prevChain (g.bbs.getD bbIdx default).instructions priorTo) with
            | none => (g, gs)
            | some point =>
              let g := emitMaterialization g gs bbIdx point.id targetReg ai used
              let g := aliasTargets.foldl (fun g at2 =>
                let dst := resolveMaterializationTarget g gs at2
                let node : InsNode := ⟨g.nextIns, Ins.set dst targetReg⟩
                let g := { g with nextIns := g.nextIns + 1 }
                insertBeforeIns g bbIdx priorTo node) g
              (g, gs)

/-- The object-bind part of the sp_bind analysis case: create shadow facts
for the hypothetical register of the bound attribute, copy the source
facts onto them, and when the bound value itself aliases a tracked
allocation, alias the shadow facts to it and record the cross-allocation
escape dependency on the target allocation (the bound value escapes if the
object it is bound into escapes). -/
def bindObjShadow (gs : GraphState) (bbIdx hypReg ai : Nat) (a : Allocation)
    (srcFacts : Facts) : GraphState × Option Nat :=
  let gs := createShadowFactsH gs hypReg
  let gs := updateShadowFactsH gs hypReg (fun f => copyFactsResolved f srcFacts)
  if allocationTracked gs bbIdx srcFacts.peaAllocation then
    match srcFacts.peaAllocation with
    | some srcAi =>
      let gs := updateShadowFactsH gs hypReg
        (fun f => { f with peaAllocation := some srcAi })
      let a2 := { a with escapeDeps := srcAi :: a.escapeDeps }
      let gs := { gs with allocs := gs.allocs.set ai a2 }
      (gs, some srcAi)
    | none => (gs, none)
  else (gs, none)

/-- The dispatch body of the analysis loop for one instruction.  The
modelled universe contains no may_cause_deopt opcodes, so the guard and
deopt-materialization handling at the top of the C loop does not arise;
handle_materialized_usages runs first, then the opcode dispatch.  Returns
the updated found_replaceable flag, workspace, and graph. -/
def analyzeIns (g : SpeshGraph) (gs : GraphState) (bbIdx : Nat) (node : InsNode)
    (found : Nat) : Nat × GraphState × SpeshGraph :=
  let gs := handleMaterializedUsages g gs bbIdx (readOperands node.ins)
  match node.ins with
  | Ins.sp_fastcreate dst _size sslot =>
    let st := g.speshSlots.getD sslot default
    match tryTrackAllocation gs bbIdx node.id dst st with
    | (some ai, gs) =>
      let tid := gs.transforms.length
      let tran : Transformation :=
        { allocation := some ai, kind := TransformKind.deleteFastcreate node.id st,
          targets := [], usedRef := none }
      let gs := { gs with transforms := gs.transforms ++ [tran] }
      let gs := addTransformForBB gs bbIdx tid
      let g := setFacts g dst { getFacts g dst with peaAllocation := some ai }
      (1, gs, g)
    | (none, gs) => (found, gs, g)
  | Ins.sp_materialize_bi dst _size sslot _offset _src _cacheIdx =>
    let st := g.speshSlots.getD sslot default
    match tryTrackAllocation gs bbIdx node.id dst st with
    | (some ai, gs) =>
      let tid := gs.transforms.length
      let tran : Transformation :=
        { allocation := some ai, kind := TransformKind.unmaterializeBI node.id st,
          targets := [], usedRef := none }
      let gs := { gs with transforms := gs.transforms ++ [tran] }
      let gs := addTransformForBB gs bbIdx tid
      let g := setFacts g dst { getFacts g dst with peaAllocation := some ai }
      (1, gs, g)
    | (none, gs) => (found, gs, g)
  | Ins.set dst src =>
    let source := getFacts g src
    if allocationTracked gs bbIdx source.peaAllocation then
      match source.peaAllocation with
      | some ai =>
        let tid := gs.transforms.length
        let tran : Transformation :=
          { allocation := some ai, kind := TransformKind.deleteSet node.id,
            targets := [], usedRef := none }
        let gs := { gs with transforms := gs.transforms ++ [tran] }
        let gs := addTransformForBB gs bbIdx tid
        let g := setFacts g dst { getFacts g dst with peaAllocation := some ai }
        let gs := addTrackedRegister gs dst ai
        let g := setFacts g dst (copyFactsResolved (getFacts g dst) source)
        (found, gs, g)
      | none => (found, gs, g)
    else (found, gs, g)
  | Ins.sp_bind p6o objBind _kind target offsetLit src =>
    let tFacts := getFacts g target
    if allocationTracked gs bbIdx tFacts.peaAllocation then
      match tFacts.peaAllocation with
      | some ai =>
        let offset := if p6o then offsetLit else offsetLit - mvmObjectSize
        let a := gs.allocs.getD ai default
        let hypReg := attributeOffsetToReg a offset
        let srcFacts := getFacts g src
        let (gs, targetAllocation) :=
          if objBind then bindObjShadow gs bbIdx hypReg ai a srcFacts
          else (gs, none)
        let tid := gs.transforms.length
        let tran : Transformation :=
          { allocation := some ai,
            kind := TransformKind.bindattrToSet node.id hypReg targetAllocation,
            targets := [], usedRef := none }
        let gs := { gs with transforms := gs.transforms ++ [tran] }
        let gs := addTransformForBB gs bbIdx tid
        let gs := markAttributeWritten gs bbIdx ai offset
        (found, gs, g)
      | none => (found, gs, g)
    else
      if objBind then
        (found, realObjectRequired g gs bbIdx node.id src true, g)
      else (found, gs, g)
  | Ins.argIns _ reads =>
    (found, unhandledInstruction g gs bbIdx node.id reads, g)
  | Ins.otherIns _ reads =>
    (found, unhandledInstruction g gs bbIdx node.id reads, g)

/-- The instruction walk of one basic block. -/
def analyzeInsList (bbIdx : Nat) :
    List InsNode → Nat → GraphState → SpeshGraph → Nat × GraphState × SpeshGraph
  | [], found, gs, g => (found, gs, g)
  | node :: rest, found, gs, g =>
    let (found2, gs2, g2) := analyzeIns g gs bbIdx node found
    analyzeInsList bbIdx rest found2 gs2 g2

/-- The reverse-postorder walk of analyze.  n is g->num_bbs (fixed), rpo the
reverse-postorder sequence, seen the per-rpo-index visited flags.  A basic
block one of whose predecessors has not been visited yet is a back edge:
the pass aborts at once, reporting 0 replaceable. -/
def analyzeLoop (n : Nat) (rpo : List Nat) (i : Nat) (seen : List Bool) (found : Nat)
    (gs : GraphState) (g : SpeshGraph) : Nat × GraphState × SpeshGraph :=
  if _h : i < n then
    let bbIdx := rpo.getD i 0
    let bb := g.bbs.getD bbIdx default
    if bb.preds.any (fun p => !(seen.getD (g.bbs.getD p default).rpoIdx false)) then
      (0, gs, g)
    else
      let gs := setupBBState gs bb.preds bbIdx
      let (found2, gs2, g2) := analyzeInsList bbIdx bb.instructions found gs g
      analyzeLoop n rpo (i + 1) (seen.set bb.rpoIdx true) found2 gs2 g2
  else (found, gs, g)
termination_by n - i

/-- analyze: obtain the reverse postorder, walk the blocks, and report
whether anything replaceable was found (0 on a back-edge abort). -/
def analyze (g : SpeshGraph) (gs : GraphState) : Nat × GraphState × SpeshGraph :=
  let gs := { gs with rpo := g.rpo }
  let r := analyzeLoop g.bbs.length g.rpo 0 (List.replicate g.bbs.length false) 0 gs g
  (r.1, { r.2.1 with rpo := [] }, r.2.2)

/-- The zeroed whole-pass workspace MVM_spesh_pea starts from. -/
def initGS (g : SpeshGraph) : GraphState :=
  { allocs := [], latestHypReg := 0, attrRegs := [],
    bbStates := List.replicate g.bbs.length default, shadowFacts := [],
    trackedRegisters := [], transforms := [], rpo := [] }

/-- MVM_spesh_pea: run the analysis; only when it reports something
replaceable, allocate the attr_regs table and apply every planned
transformation walking the blocks in linear order. -/
def MVM_spesh_pea (g : SpeshGraph) : SpeshGraph :=
  let gs := initGS g
  let (found, gs, g2) := analyze g gs
  if found ≠ 0 then
    let gs := { gs with attrRegs := List.replicate gs.latestHypReg 0 }
    let r := (List.range g2.bbs.length).foldl
      (fun (acc : SpeshGraph × GraphState) k =>
        ((acc.2.bbStates.getD k default).transformations.foldl
          (fun (acc2 : SpeshGraph × GraphState) tid =>
            applyTransform acc2.1 acc2.2 k tid) acc)) (g2, gs)
    r.1
  else g2

/-- Whether the graph contains a back edge: some block, at its position in
the reverse-postorder walk, has a predecessor whose rpo index has not been
walked yet (its own included). -/
def hasBackEdge (g : SpeshGraph) : Bool :=
  (List.range g.bbs.length).any (fun i =>
    (g.bbs.getD (g.rpo.getD i 0) default).preds.any (fun p =>
      i ≤ (g.bbs.getD p default).rpoIdx))

/-- Everything of a graph apart from the per-register facts: the blocks and
their instructions, the reverse postorder, the spesh slots, the versioning
and allocation counters, and the two PEA deopt side tables. -/
def SameShape (g g2 : SpeshGraph) : Prop :=
  g2.bbs = g.bbs ∧ g2.rpo = g.rpo ∧ g2.speshSlots = g.speshSlots ∧
  g2.versions = g.versions ∧ g2.nextIns = g.nextIns ∧ g2.nextReg = g.nextReg ∧
  g2.deoptMaterializeInfo = g.deoptMaterializeInfo ∧ g2.deoptPoint = g.deoptPoint

/-- A trackable STable: P6opaque with no attributes. -/
def exStOk : STableModel := ⟨ReprId.P6opq, [], 16, none⟩

/-- An untrackable STable: P6opaque with one attribute of an unhandled
storage kind. -/
def exStBad : STableModel :=
  ⟨ReprId.P6opq, [⟨0, some ⟨ReprId.otherRepr 0, BoxedPrim.noBox, 0, false⟩⟩], 16, none⟩

/-- A P6opaque STable with one reference-typed attribute at offset 0. -/
def exStOneAttr : STableModel := ⟨ReprId.P6opq, [⟨0, none⟩], 24, none⟩

/-- A straight-line graph with one block holding one trackable
sp_fastcreate. -/
def exG1 : SpeshGraph :=
  { bbs := [⟨0, [], [], [⟨0, Ins.sp_fastcreate ⟨0, 0⟩ 16 0⟩]⟩],
    rpo := [0], facts := [[default]], speshSlots := [exStOk],
    versions := [], nextIns := 1, nextReg := 0,
    deoptMaterializeInfo := [], deoptPoint := [] }

/-- A graph with a back edge: block 1 (rpo position 1) has block 2 (rpo
position 2) among its predecessors, and block 0 holds a trackable
sp_fastcreate that the analysis processes before reaching the back edge. -/
def exG0 : SpeshGraph :=
  { bbs := [⟨0, [], [], [⟨0, Ins.sp_fastcreate ⟨0, 0⟩ 16 0⟩]⟩,
            ⟨1, [2], [], []⟩,
            ⟨2, [1], [], []⟩],
    rpo := [0, 1, 2], facts := [[default]], speshSlots := [exStOk],
    versions := [], nextIns := 1, nextReg := 0,
    deoptMaterializeInfo := [], deoptPoint := [] }

/-- A three-allocation store with dependency edges 0 -> 1, 0 -> 2, 1 -> 2. -/
def exStore3 : AllocStore :=
  [{ (default : Allocation) with index := 0, escapeDeps := [1, 2] },
   { (default : Allocation) with index := 1, escapeDeps := [2] },
   { (default : Allocation) with index := 2 }]

/-- An empty graph, for exercising the transformer in isolation. -/
def exGTriv : SpeshGraph :=
  { bbs := [], rpo := [], facts := [], speshSlots := [],
    versions := [], nextIns := 0, nextReg := 0,
    deoptMaterializeInfo := [], deoptPoint := [] }

/-- A workspace whose only allocation is irreplaceable and owns a planned
transformation. -/
def exGS4 : GraphState :=
  { allocs := [{ (default : Allocation) with index := 0, irreplaceable := true }],
    latestHypReg := 0, attrRegs := [], bbStates := [],
    shadowFacts := [], trackedRegisters := [],
    transforms := [⟨some 0, TransformKind.deleteSet 0, [], none⟩], rpo := [] }

/-- A workspace for the merge engine: one single-attribute allocation, two
predecessor blocks of which only the first wrote the attribute, and a
third block to merge into. -/
def exGS5 : GraphState :=
  { allocs := [{ (default : Allocation) with index := 0, type := exStOneAttr }],
    latestHypReg := 1, attrRegs := [],
    bbStates := [⟨[⟨true, some [1], []⟩], []⟩,
                 ⟨[⟨true, some [0], []⟩], []⟩,
                 ⟨[], []⟩],
    shadowFacts := [], trackedRegisters := [], transforms := [], rpo := [] }

/-- A workspace for the merge engine at the C byte-counter limit: one
single-attribute allocation and 256 predecessor blocks that have all seen
the allocation and all written its attribute, plus a 257th block to merge
into. -/
def exGS5w : GraphState :=
  { allocs := [{ (default : Allocation) with index := 0, type := exStOneAttr }],
    latestHypReg := 1, attrRegs := [],
    bbStates := List.replicate 256 ⟨[⟨true, some [1], []⟩], []⟩ ++ [⟨[], []⟩],
    shadowFacts := [], trackedRegisters := [], transforms := [], rpo := [] }

/-- A graph whose register 0 aliases tracked allocation 0 in its facts. -/
def exG6 : SpeshGraph :=
  { bbs := [⟨0, [], [], []⟩],
    rpo := [0], facts := [[{ (default : Facts) with peaAllocation := some 0 }]],
    speshSlots := [], versions := [], nextIns := 0, nextReg := 0,
    deoptMaterializeInfo := [], deoptPoint := [] }

/-- A workspace tracking one replaceable allocation that has been read
(making a materialization worthwhile). -/
def exGS6 : GraphState :=
  { allocs := [{ (default : Allocation) with index := 0, type := exStOk, read := true }],
    latestHypReg := 0, attrRegs := [], bbStates := [default],
    shadowFacts := [], trackedRegisters := [], transforms := [], rpo := [0] }

/-- A workspace like exGS6 whose allocation is not worth materializing
(never read, not a big integer, and the use is not in a branch). -/
def exGS6n : GraphState :=
  { allocs := [{ (default : Allocation) with index := 0, type := exStOk }],
    latestHypReg := 0, attrRegs := [], bbStates := [default],
    shadowFacts := [], trackedRegisters := [], transforms := [], rpo := [0] }

/-- A workspace in which allocation 0 already has a materialization planned
(transform 0) in block 0. -/
def exGS9 : GraphState :=
  { allocs := [{ (default : Allocation) with index := 0, type := exStOk }],
    latestHypReg := 0, attrRegs := [],
    bbStates := [⟨[⟨true, none, [0]⟩], []⟩],
    shadowFacts := [], trackedRegisters := [],
    transforms := [⟨some 0, TransformKind.materialize 0,
      [MTarget.concrete ⟨9, 0⟩], some (0, 0)⟩], rpo := [] }

/-- How one allocation record can evolve under mark_irreplaceable: every
field is preserved except that the irreplaceable flag can only be raised
and the escape-dependency stack can only lose entries from its top. -/
def ShrinkA (x y : Allocation) : Prop :=
  y.allocatorBB = x.allocatorBB ∧ y.allocatorIns = x.allocatorIns ∧
  y.type = x.type ∧ y.index = x.index ∧ y.hypAttrRegs = x.hypAttrRegs ∧
  y.bigint = x.bigint ∧ y.read = x.read ∧
  (x.irreplaceable = true → y.irreplaceable = true) ∧
  y.escapeDeps.IsSuffix x.escapeDeps

/-- How an allocation store can evolve under mark_irreplaceable: same
length, every record evolving by ShrinkA. -/
def Shrink (s r : AllocStore) : Prop :=
  r.length = s.length ∧
  ∀ (u : Nat) (x : Allocation), s[u]? = some x → ∃ y, r[u]? = some y ∧ ShrinkA x y

/-- How the transformation plan evolves during the analysis of one
instruction: transforms are only ever appended (MVM_VECTOR_PUSH), never
rewritten or removed. -/
def TransExt (a c : GraphState) : Prop :=
  ∃ e, c.transforms = a.transforms ++ e

/-- How the per-block materialization lists evolve during the analysis of
one instruction: each list is only ever appended to. -/
def MatsExt (a c : GraphState) : Prop :=
  ∀ b2 i2 : Nat, ∃ e, (getAState c b2 i2).materializations =
    (getAState a b2 i2).materializations ++ e

/-- C8: find_materialization_insertion_point returns the first instruction
on the backwards walk from the anchor whose opcode is not one of arg_i,
arg_n, arg_s, arg_o, argconst_i, argconst_n, argconst_s, and it panics
(models as none) exactly when every instruction from the anchor back to
the start of the block is such an argument opcode. -/
theorem C8_insertion_point_walk (chain : List InsNode) :
    find_materialization_insertion_point chain = insertionPointSpec chain ∧
    (find_materialization_insertion_point chain = none ↔
      ∀ n ∈ chain, isArgIns n.ins = true) := by
  induction chain with
  | nil => simp [find_materialization_insertion_point, insertionPointSpec]
  | cons n rest ih =>
    by_cases h : isArgIns n.ins
    · refine ⟨?_, ?_⟩
      · simpa [find_materialization_insertion_point, insertionPointSpec,
          List.dropWhile_cons, h] using ih.1
      · rw [show find_materialization_insertion_point (n :: rest) =
            find_materialization_insertion_point rest by
            simp [find_materialization_insertion_point, h]]
        rw [ih.2]
        constructor
        · intro hall m hm
          rcases List.mem_cons.mp hm with hm | hm
          · simpa [hm] using h
          · exact hall m hm
        · intro hall m hm
          exact hall m (List.mem_cons_of_mem n hm)
    · refine ⟨?_, ?_⟩
      · simp [find_materialization_insertion_point, insertionPointSpec,
          List.dropWhile_cons, h]
      · constructor
        · intro hnone
          simp [find_materialization_insertion_point, h] at hnone
        · intro hall
          exact absurd (hall n (List.mem_cons_self n rest)) (by simpa using h)

/-- C10: the P6int representation boxes only native integers: get_int
returns what set_int stored, copy_to copies the boxed value, and the num,
string, and boxed-reference accessors raise an exception on every input
(the body is returned unchanged only through the exception-free paths). -/
theorem C10_p6int_boxing :
    (∀ (b : P6int.P6intBody) (v : Int), P6int.get_int (P6int.set_int b v) = v) ∧
    (∀ (src dest : P6int.P6intBody),
      P6int.get_int (P6int.copy_to src dest) = P6int.get_int src) ∧
    (∀ (α : Type) (b : P6int.P6intBody) (v : α),
      P6int.set_num b v =
        Except.error "P6int representation cannot box a native num") ∧
    (∀ b : P6int.P6intBody,
      P6int.get_num b =
        Except.error "P6int representation cannot unbox to a native num") ∧
    (∀ (α : Type) (b : P6int.P6intBody) (v : α),
      P6int.set_str b v =
        Except.error "P6int representation cannot box a native string") ∧
    (∀ b : P6int.P6intBody,
      P6int.get_str b =
        Except.error "P6int representation cannot unbox to a native string") ∧
    (∀ (b : P6int.P6intBody) (r : Nat),
      P6int.get_boxed_ref b r =
        Except.error "P6int representation cannot unbox to other types") :=
  ⟨fun _ _ => rfl, fun _ _ => rfl, fun _ _ _ => rfl, fun _ => rfl,
   fun _ _ _ => rfl, fun _ => rfl, fun _ _ => rfl⟩

theorem listSetD_getD_self (l : List α) (i : Nat) (x d : α) :
    (listSetD l i x d).getD i d = x := by
  unfold listSetD
  by_cases h : i < l.length
  · simp [h, List.getD_eq_getElem?_getD, List.getElem?_set_self h]
  · have hlen : i < (l ++ List.replicate (i + 1 - l.length) d).length := by
      simp [List.length_append, List.length_replicate]
      omega
    simp [h, List.getD_eq_getElem?_getD, List.getElem?_set_self hlen]

theorem listSetD_getD_ne (l : List α) (i j : Nat) (x d : α) (h : i ≠ j) :
    (listSetD l i x d).getD j d = l.getD j d := by
  unfold listSetD
  by_cases hl : i < l.length
  · simp [hl, List.getD_eq_getElem?_getD, List.getElem?_set_ne h]
  · simp only [hl, if_false, List.getD_eq_getElem?_getD, List.getElem?_set_ne h]
    by_cases hj : j < l.length
    · rw [List.getElem?_append_left (by simpa using hj)]
    · rw [List.getElem?_append_right (by omega)]
      have h1 : l[j]? = none := by
        rw [List.getElem?_eq_none_iff]
        omega
      rw [h1]
      by_cases hj2 : j - l.length < i + 1 - l.length
      · rw [List.getElem?_replicate]
        simp [hj2]
      · rw [List.getElem?_eq_none_iff.mpr (by simp [List.length_replicate]; omega)]

theorem setAState_allocs (gs : GraphState) (b i : Nat) (st : BBAllocState) :
    (setAState gs b i st).allocs = gs.allocs := rfl

theorem setAState_transforms (gs : GraphState) (b i : Nat) (st : BBAllocState) :
    (setAState gs b i st).transforms = gs.transforms := rfl

theorem setAState_latestHypReg (gs : GraphState) (b i : Nat) (st : BBAllocState) :
    (setAState gs b i st).latestHypReg = gs.latestHypReg := rfl

theorem setAState_shadowFacts (gs : GraphState) (b i : Nat) (st : BBAllocState) :
    (setAState gs b i st).shadowFacts = gs.shadowFacts := rfl

theorem setAState_trackedRegisters (gs : GraphState) (b i : Nat) (st : BBAllocState) :
    (setAState gs b i st).trackedRegisters = gs.trackedRegisters := rfl

theorem setAState_attrRegs (gs : GraphState) (b i : Nat) (st : BBAllocState) :
    (setAState gs b i st).attrRegs = gs.attrRegs := rfl

theorem setAState_rpo (gs : GraphState) (b i : Nat) (st : BBAllocState) :
    (setAState gs b i st).rpo = gs.rpo := rfl

theorem setAState_bbStates_length (gs : GraphState) (b i : Nat) (st : BBAllocState) :
    (setAState gs b i st).bbStates.length = gs.bbStates.length := by
  simp [setAState]

theorem getAState_setAState_self (gs : GraphState) (b i : Nat) (st : BBAllocState)
    (hb : b < gs.bbStates.length) :
    getAState (setAState gs b i st) b i = st := by
  unfold getAState setAState
  simp only [List.getD_eq_getElem?_getD, List.getElem?_set_self hb]
  simp [← List.getD_eq_getElem?_getD, listSetD_getD_self]

/-- The attribute walk of try_track_allocation succeeds exactly when every
attribute kind is handled; on success it hands out the consecutive counter
values, reports whether any attribute boxes a big integer, and leaves the
counter advanced by the attribute count. -/
theorem assignAttrRegs_spec (attrs : List AttrModel) (ctr : Nat) :
    ((assignAttrRegs attrs ctr).1.isSome ↔
      ∀ a ∈ attrs, (flattened_type_to_register_kind a.flat).isSome) ∧
    (∀ regs bi, (assignAttrRegs attrs ctr).1 = some (regs, bi) →
      regs = List.range' ctr attrs.length ∧
      bi = attrs.any (fun a =>
        flattened_type_to_register_kind a.flat = some RegKind.obi) ∧
      (assignAttrRegs attrs ctr).2 = ctr + attrs.length) := by
  induction attrs generalizing ctr with
  | nil => simp [assignAttrRegs]
  | cons a rest ih =>
    rcases hk : flattened_type_to_register_kind a.flat with _ | k
    · constructor
      · simp [assignAttrRegs, hk]
      · intro regs bi h
        simp [assignAttrRegs, hk] at h
    · rcases hrest : assignAttrRegs rest (ctr + 1) with ⟨ro, c2⟩
      rcases ro with _ | ⟨regs0, bi0⟩
      · constructor
        · constructor
          · intro hsome
            simp [assignAttrRegs, hk, hrest] at hsome
          · intro hall
            exfalso
            have h2 := ((ih (ctr + 1)).1).mpr (fun x hx => hall x (List.mem_cons_of_mem a hx))
            rw [hrest] at h2
            simp at h2
        · intro regs bi h
          simp [assignAttrRegs, hk, hrest] at h
      · have hspec := (ih (ctr + 1)).2 regs0 bi0 (by rw [hrest])
        constructor
        · constructor
          · intro _
            intro x hx
            rcases List.mem_cons.mp hx with hx | hx
            · simp [hx, hk]
            · exact ((ih (ctr + 1)).1).mp (by rw [hrest]; simp) x hx
          · intro _
            simp [assignAttrRegs, hk, hrest]
        · intro regs bi h
          simp only [assignAttrRegs, hk, hrest, Option.some_inj, Prod.mk.injEq] at h
          refine ⟨?_, ?_, ?_⟩
          · rw [← h.1, hspec.1]
            simp [List.range'_succ ctr rest.length 1]
          · rw [← h.2, hspec.2.1, List.any_cons, Bool.or_comm]
            simp [hk]
          · rw [hrest] at hspec
            simp only [assignAttrRegs, hk, hrest]
            simp only at hspec
            rw [hspec.2.2]
            simp [List.length_cons]
            omega

/-- C7: try_track_allocation returns a fresh allocation record exactly when
the STable is a P6opaque all of whose attribute storage kinds are handled;
on success it assigns consecutive fresh hypothetical register indices, sets
the bigint flag when some attribute boxes a big integer, records the
allocating instruction and basic block, pushes the allocation onto the
tracked vector, adds the result register to the tracked-register table, and
marks the allocation seen in the current block. -/
theorem C7_try_track_allocation (gs : GraphState) (bbIdx insId : Nat) (reg : Operand)
    (st : STableModel) (hbb : bbIdx < gs.bbStates.length) :
    ((tryTrackAllocation gs bbIdx insId reg st).1.isSome ↔
      (st.reprId = ReprId.P6opq ∧
        ∀ a ∈ st.attrs, (flattened_type_to_register_kind a.flat).isSome)) ∧
    (∀ ai gs2, tryTrackAllocation gs bbIdx insId reg st = (some ai, gs2) →
      ai = gs.allocs.length ∧
      gs2.allocs = gs.allocs ++
        [{ allocatorBB := bbIdx, allocatorIns := insId, type := st,
           index := gs.allocs.length,
           hypAttrRegs := List.range' gs.latestHypReg st.attrs.length,
           bigint := st.attrs.any (fun a =>
             decide (flattened_type_to_register_kind a.flat = some RegKind.obi)),
           read := false, irreplaceable := false, escapeDeps := [] }] ∧
      gs2.latestHypReg = gs.latestHypReg + st.attrs.length ∧
      gs2.trackedRegisters = gs.trackedRegisters ++ [(reg, gs.allocs.length)] ∧
      (getAState gs2 bbIdx gs.allocs.length).seen = true) := by
  by_cases hrepr : st.reprId = ReprId.P6opq
  · rcases h : assignAttrRegs st.attrs gs.latestHypReg with ⟨ro, c2⟩
    have hspec := assignAttrRegs_spec st.attrs gs.latestHypReg
    rcases ro with _ | ⟨regs, bi⟩
    · constructor
      · constructor
        · intro hsome
          exfalso
          simp [tryTrackAllocation, hrepr, h] at hsome
        · intro ⟨_, hall⟩
          exfalso
          have := hspec.1.mpr hall
          rw [h] at this
          simp at this
      · intro ai gs2 heq
        exfalso
        simp [tryTrackAllocation, hrepr, h] at heq
    · have hfields := hspec.2 regs bi (by rw [h])
      rw [h] at hfields
      constructor
      · constructor
        · intro _
          refine ⟨hrepr, hspec.1.mp ?_⟩
          rw [h]
          simp
        · intro _
          simp [tryTrackAllocation, hrepr, h]
      · intro ai gs2 heq
        simp only [tryTrackAllocation, hrepr, if_true, h] at heq
        rw [Prod.mk.injEq, Option.some_inj] at heq
        rcases heq with ⟨hai, hgs2⟩
        subst hai
        subst hgs2
        refine ⟨rfl, ?_, ?_, rfl, ?_⟩
        · simp only [markAllocationSeen, setAState_allocs, addTrackedRegister]
          rw [hfields.1, hfields.2.1]
        · simp only [markAllocationSeen, setAState_latestHypReg, addTrackedRegister]
          exact hfields.2.2
        · rw [show (markAllocationSeen (addTrackedRegister
              { gs with latestHypReg := c2, allocs := gs.allocs ++ [_] }
              reg gs.allocs.length) bbIdx gs.allocs.length) =
              setAState (addTrackedRegister
                { gs with latestHypReg := c2, allocs := gs.allocs ++ [_] }
                reg gs.allocs.length) bbIdx gs.allocs.length
                { getAState (addTrackedRegister
                    { gs with latestHypReg := c2, allocs := gs.allocs ++ [_] }
                    reg gs.allocs.length) bbIdx gs.allocs.length with seen := true }
              from rfl]
          rw [getAState_setAState_self]
          exact hbb
  · constructor
    · constructor
      · intro hsome
        exfalso
        simp [tryTrackAllocation, hrepr] at hsome
      · intro ⟨hr, _⟩
        exact absurd hr hrepr
    · intro ai gs2 heq
      exfalso
      simp [tryTrackAllocation, hrepr] at heq

theorem shrinkA_refl (x : Allocation) : ShrinkA x x :=
  ⟨rfl, rfl, rfl, rfl, rfl, rfl, rfl, fun h => h, List.suffix_refl _⟩

theorem shrinkA_trans {x y z : Allocation} (h1 : ShrinkA x y) (h2 : ShrinkA y z) :
    ShrinkA x z := by
  obtain ⟨a1, b1, c1, d1, e1, f1, g1, i1, j1⟩ := h1
  obtain ⟨a2, b2, c2, d2, e2, f2, g2, i2, j2⟩ := h2
  exact ⟨a2.trans a1, b2.trans b1, c2.trans c1, d2.trans d1, e2.trans e1,
    f2.trans f1, g2.trans g1, fun h => i2 (i1 h), j2.trans j1⟩

theorem shrink_refl (s : AllocStore) : Shrink s s :=
  ⟨rfl, fun _ x h => ⟨x, h, shrinkA_refl x⟩⟩

theorem shrink_trans {s r t : AllocStore} (h1 : Shrink s r) (h2 : Shrink r t) :
    Shrink s t := by
  refine ⟨h2.1.trans h1.1, fun u x hx => ?_⟩
  obtain ⟨y, hy, hxy⟩ := h1.2 u x hx
  obtain ⟨z, hz, hyz⟩ := h2.2 u y hy
  exact ⟨z, hz, shrinkA_trans hxy hyz⟩

theorem shrink_set {s : AllocStore} {i : Nat} {a b : Allocation}
    (h : s[i]? = some a) (hab : ShrinkA a b) : Shrink s (s.set i b) := by
  obtain ⟨hlt, _⟩ := List.getElem?_eq_some.mp h
  refine ⟨List.length_set s i b, fun u x hx => ?_⟩
  by_cases hu : i = u
  · subst hu
    rw [h] at hx
    cases hx
    exact ⟨b, List.getElem?_set_self hlt, hab⟩
  · exact ⟨x, by rw [List.getElem?_set_ne hu, hx], shrinkA_refl x⟩

theorem shrink_marked {s r : AllocStore} (h : Shrink s r) {v : Nat}
    (hm : isMarked s v = true) : isMarked r v = true := by
  unfold isMarked at hm ⊢
  rcases hx : s[v]? with _ | x
  · rw [hx] at hm
    exact absurd hm (by simp)
  · rw [hx] at hm
    obtain ⟨y, hy, hxy⟩ := h.2 v x hx
    rw [hy]
    exact hxy.2.2.2.2.2.2.2.1 hm

theorem shrink_drained {s r : AllocStore} (h : Shrink s r) {v : Nat}
    (hd : depsOf s v = []) : depsOf r v = [] := by
  rcases hx : s[v]? with _ | x
  · have hv : v ≥ s.length := by
      by_contra hc
      push_neg at hc
      rw [List.getElem?_eq_none_iff] at hx
      omega
    have hlen := h.1
    unfold depsOf
    rw [List.getElem?_eq_none_iff.mpr (by omega : r.length ≤ v)]
  · obtain ⟨y, hy, hxy⟩ := h.2 v x hx
    have hd2 : x.escapeDeps = [] := by
      unfold depsOf at hd
      rw [hx] at hd
      exact hd
    have hsfx := hxy.2.2.2.2.2.2.2.2
    rw [hd2] at hsfx
    unfold depsOf
    rw [hy]
    exact List.suffix_nil.mp hsfx

theorem markF_length (fuel : Nat) :
    (∀ s i, (markIrrF fuel s i).length = s.length) ∧
    (∀ s i, (markDrainF fuel s i).length = s.length) := by
  induction fuel with
  | zero => exact ⟨fun _ _ => rfl, fun _ _ => rfl⟩
  | succ f ih =>
    constructor
    · intro s i
      rcases h : s[i]? with _ | a
      · simp [markIrrF, h]
      · simp only [markIrrF, h]
        rw [ih.2, List.length_set]
    · intro s i
      rcases h : s[i]? with _ | a
      · simp [markDrainF, h]
      · rcases hd : a.escapeDeps with _ | ⟨d, rest⟩
        · simp [markDrainF, h, hd]
        · simp only [markDrainF, h, hd]
          rw [ih.2, ih.1, List.length_set]

theorem markF_shrink (fuel : Nat) :
    (∀ s i, Shrink s (markIrrF fuel s i)) ∧
    (∀ s i, Shrink s (markDrainF fuel s i)) := by
  induction fuel with
  | zero => exact ⟨fun s _ => shrink_refl s, fun s _ => shrink_refl s⟩
  | succ f ih =>
    constructor
    · intro s i
      rcases h : s[i]? with _ | a
      · simp only [markIrrF, h]
        exact shrink_refl s
      · simp only [markIrrF, h]
        exact shrink_trans
          (shrink_set h (show ShrinkA a { a with irreplaceable := true } from
            ⟨rfl, rfl, rfl, rfl, rfl, rfl, rfl, fun _ => rfl, List.suffix_refl _⟩))
          (ih.2 _ i)
    · intro s i
      rcases h : s[i]? with _ | a
      · simp only [markDrainF, h]
        exact shrink_refl s
      · rcases hd : a.escapeDeps with _ | ⟨d, rest⟩
        · simp only [markDrainF, h, hd]
          exact shrink_refl s
        · simp only [markDrainF, h, hd]
          refine shrink_trans (shrink_set h ?_) (shrink_trans (ih.1 _ d) (ih.2 _ i))
          exact ⟨rfl, rfl, rfl, rfl, rfl, rfl, rfl, fun hx => hx,
            by rw [hd]; exact List.suffix_cons d rest⟩

theorem depsOf_eq {s : AllocStore} {i : Nat} {a : Allocation} (h : s[i]? = some a) :
    depsOf s i = a.escapeDeps := by
  unfold depsOf
  rw [h]

theorem depsOf_set_self {s : AllocStore} {i : Nat} (b : Allocation)
    (h : i < s.length) : depsOf (s.set i b) i = b.escapeDeps := by
  unfold depsOf
  rw [List.getElem?_set_self h]

theorem depsOf_set_ne {s : AllocStore} {i u : Nat} (b : Allocation)
    (h : i ≠ u) : depsOf (s.set i b) u = depsOf s u := by
  unfold depsOf
  rw [List.getElem?_set_ne h]

theorem totalDeps_set (s : AllocStore) (i : Nat) (a b : Allocation)
    (h : s[i]? = some a) :
    totalDeps (s.set i b) + a.escapeDeps.length =
      totalDeps s + b.escapeDeps.length := by
  induction s generalizing i with
  | nil => simp at h
  | cons hd tl ih =>
    cases i with
    | zero =>
      simp only [List.getElem?_cons_zero, Option.some_inj] at h
      subst h
      simp [totalDeps]
      omega
    | succ n =>
      simp only [List.getElem?_cons_succ] at h
      have := ih n h
      simp only [totalDeps, List.set, List.map_cons, List.sum_cons] at this ⊢
      omega

theorem totalDeps_set_irr (s : AllocStore) (i : Nat) (a : Allocation)
    (h : s[i]? = some a) :
    totalDeps (s.set i { a with irreplaceable := true }) = totalDeps s := by
  have := totalDeps_set s i a { a with irreplaceable := true } h
  simp at this
  omega

theorem totalDeps_set_pop (s : AllocStore) (i : Nat) (a : Allocation)
    (d : Nat) (rest : List Nat) (h : s[i]? = some a) (hd : a.escapeDeps = d :: rest) :
    totalDeps (s.set i { a with escapeDeps := rest }) + 1 = totalDeps s := by
  have := totalDeps_set s i a { a with escapeDeps := rest } h
  rw [hd] at this
  simp at this
  omega

theorem markF_totalDeps_le (fuel : Nat) :
    (∀ s i, totalDeps (markIrrF fuel s i) ≤ totalDeps s) ∧
    (∀ s i, totalDeps (markDrainF fuel s i) ≤ totalDeps s) := by
  induction fuel with
  | zero => exact ⟨fun _ _ => le_refl _, fun _ _ => le_refl _⟩
  | succ f ih =>
    constructor
    · intro s i
      rcases h : s[i]? with _ | a
      · simp [markIrrF, h]
      · simp only [markIrrF, h]
        calc totalDeps (markDrainF f (s.set i { a with irreplaceable := true }) i)
            ≤ totalDeps (s.set i { a with irreplaceable := true }) := ih.2 _ _
          _ = totalDeps s := totalDeps_set_irr s i a h
    · intro s i
      rcases h : s[i]? with _ | a
      · simp [markDrainF, h]
      · rcases hd : a.escapeDeps with _ | ⟨d, rest⟩
        · simp [markDrainF, h, hd]
        · simp only [markDrainF, h, hd]
          have h1 := ih.2 (markIrrF f (s.set i { a with escapeDeps := rest }) d) i
          have h2 := ih.1 (s.set i { a with escapeDeps := rest }) d
          have h3 := totalDeps_set_pop s i a d rest h hd
          omega

theorem markF_marks_drains (fuel : Nat) :
    (∀ s i, 2 * totalDeps s + 2 ≤ fuel → i < s.length →
      isMarked (markIrrF fuel s i) i = true ∧ depsOf (markIrrF fuel s i) i = []) ∧
    (∀ s i a, 2 * totalDeps s + 1 ≤ fuel → s[i]? = some a →
      a.irreplaceable = true →
      isMarked (markDrainF fuel s i) i = true ∧
        depsOf (markDrainF fuel s i) i = []) := by
  induction fuel with
  | zero =>
    constructor
    · intro s i hb
      omega
    · intro s i a hb
      omega
  | succ f ih =>
    constructor
    · intro s i hb hlt
      rcases h : s[i]? with _ | a
      · rw [List.getElem?_eq_none_iff] at h
        omega
      · simp only [markIrrF, h]
        have hset : (s.set i { a with irreplaceable := true })[i]? =
            some { a with irreplaceable := true } := List.getElem?_set_self hlt
        refine ih.2 _ i { a with irreplaceable := true } ?_ hset rfl
        rw [totalDeps_set_irr s i a h]
        omega
    · intro s i a hb h hirr
      rcases hd : a.escapeDeps with _ | ⟨d, rest⟩
      · simp only [markDrainF, h, hd]
        constructor
        · unfold isMarked
          rw [h]
          exact hirr
        · rw [depsOf_eq h, hd]
      · simp only [markDrainF, h, hd]
        have hlt : i < s.length := (List.getElem?_eq_some.mp h).1
        have hset : (s.set i { a with escapeDeps := rest })[i]? =
            some { a with escapeDeps := rest } := List.getElem?_set_self hlt
        have hshr := (markF_shrink f).1 (s.set i { a with escapeDeps := rest }) d
        obtain ⟨y, hy, hxy⟩ := hshr.2 i { a with escapeDeps := rest } hset
        have hyirr : y.irreplaceable = true := hxy.2.2.2.2.2.2.2.1 hirr
        refine ih.2 _ i y ?_ hy hyirr
        have h1 := (markF_totalDeps_le f).1 (s.set i { a with escapeDeps := rest }) d
        have h3 := totalDeps_set_pop s i a d rest h hd
        omega

theorem markF_edges (fuel : Nat) :
    (∀ s i u v, 2 * totalDeps s + 2 ≤ fuel → v < s.length → v ∈ depsOf s u →
      v ∈ depsOf (markIrrF fuel s i) u ∨
        (isMarked (markIrrF fuel s i) v = true ∧
          depsOf (markIrrF fuel s i) v = [])) ∧
    (∀ s i u v, 2 * totalDeps s + 1 ≤ fuel → v < s.length → v ∈ depsOf s u →
      v ∈ depsOf (markDrainF fuel s i) u ∨
        (isMarked (markDrainF fuel s i) v = true ∧
          depsOf (markDrainF fuel s i) v = [])) := by
  induction fuel with
  | zero =>
    constructor
    · intro s i u v hb
      omega
    · intro s i u v hb
      omega
  | succ f ih =>
    constructor
    · intro s i u v hb hv hmem
      rcases h : s[i]? with _ | a
      · simp only [markIrrF, h]
        exact Or.inl hmem
      · simp only [markIrrF, h]
        have hlt : i < s.length := (List.getElem?_eq_some.mp h).1
        have hdeps : ∀ w, depsOf (s.set i { a with irreplaceable := true }) w =
            depsOf s w := by
          intro w
          by_cases hw : i = w
          · subst hw
            rw [depsOf_set_self _ hlt, depsOf_eq h]
          · exact depsOf_set_ne _ hw
        refine (ih.2 _ i u v ?_ ?_ ?_).imp ?_ id
        · rw [totalDeps_set_irr s i a h]
          omega
        · rw [List.length_set]
          exact hv
        · rw [hdeps u]
          exact hmem
        · exact fun hx => hx
    · intro s i u v hb hv hmem
      rcases h : s[i]? with _ | a
      · simp only [markDrainF, h]
        exact Or.inl hmem
      · rcases hd : a.escapeDeps with _ | ⟨d, rest⟩
        · simp only [markDrainF, h, hd]
          exact Or.inl hmem
        · simp only [markDrainF, h, hd]
          have hlt : i < s.length := (List.getElem?_eq_some.mp h).1
          have hb2 : 2 * totalDeps (s.set i { a with escapeDeps := rest }) + 2 ≤ f := by
            have h3 := totalDeps_set_pop s i a d rest h hd
            omega
          have hlen' : (s.set i { a with escapeDeps := rest }).length = s.length :=
            List.length_set s i _
          have hmlen : (markIrrF f (s.set i { a with escapeDeps := rest }) d).length =
              s.length := by
            rw [(markF_length f).1, hlen']
          have hedgecase : v ∈ depsOf (s.set i { a with escapeDeps := rest }) u →
              v ∈ depsOf (markDrainF f
                (markIrrF f (s.set i { a with escapeDeps := rest }) d) i) u ∨
              (isMarked (markDrainF f
                (markIrrF f (s.set i { a with escapeDeps := rest }) d) i) v = true ∧
               depsOf (markDrainF f
                (markIrrF f (s.set i { a with escapeDeps := rest }) d) i) v = []) := by
            intro hmem'
            rcases ih.1 (s.set i { a with escapeDeps := rest }) d u v hb2
                (by rw [hlen']; exact hv) hmem' with hcase | ⟨hm2, hd2⟩
            · refine ih.2 _ i u v ?_ ?_ hcase
              · have h1 := (markF_totalDeps_le f).1 (s.set i { a with escapeDeps := rest }) d
                have h3 := totalDeps_set_pop s i a d rest h hd
                omega
              · rw [hmlen]
                exact hv
            · right
              have hshr := (markF_shrink f).2
                (markIrrF f (s.set i { a with escapeDeps := rest }) d) i
              exact ⟨shrink_marked hshr hm2, shrink_drained hshr hd2⟩
          by_cases hu : i = u
          · subst hu
            rw [depsOf_eq h, hd] at hmem
            rcases List.mem_cons.mp hmem with hvd | hvrest
            · subst hvd
              right
              have hmd := (markF_marks_drains f).1 (s.set i { a with escapeDeps := rest })
                v hb2 (by rw [hlen']; exact hv)
              have hshr := (markF_shrink f).2
                (markIrrF f (s.set i { a with escapeDeps := rest }) v) i
              exact ⟨shrink_marked hshr hmd.1, shrink_drained hshr hmd.2⟩
            · exact hedgecase (by rw [depsOf_set_self _ hlt]; exact hvrest)
          · exact hedgecase (by rw [depsOf_set_ne _ hu]; exact hmem)

theorem depReach_start_lt {s : AllocStore} {i j : Nat} (h : DepReach s i j) :
    i < s.length := by
  cases h with
  | refl _ hlt => exact hlt
  | step _ _ _ a ha _ _ => exact (List.getElem?_eq_some.mp ha).1

theorem chain_marked {s r : AllocStore}
    (hedge : ∀ u v, v < s.length → v ∈ depsOf s u →
      v ∈ depsOf r u ∨ (isMarked r v = true ∧ depsOf r v = [])) :
    ∀ u j, DepReach s u j → isMarked r u = true → depsOf r u = [] →
      isMarked r j = true := by
  intro u j h
  induction h with
  | refl i _ =>
    intro hm _
    exact hm
  | step i w k a ha hw _ ih =>
    intro hm hd
    have hwlt : w < s.length := depReach_start_lt (by assumption)
    have hmem : w ∈ depsOf s i := by rw [depsOf_eq ha]; exact hw
    rcases hedge i w hwlt hmem with hcase | ⟨hm2, hd2⟩
    · rw [hd] at hcase
      simp at hcase
    · exact ih hm2 hd2

theorem markIrreplaceable_shrink (s : AllocStore) (i : Nat) :
    Shrink s (markIrreplaceable s i) :=
  (markF_shrink _).1 s i

theorem markIrreplaceable_marks {s : AllocStore} {i j : Nat} (h : DepReach s i j) :
    isMarked (markIrreplaceable s i) j = true := by
  have hi : i < s.length := depReach_start_lt h
  have hmd := (markF_marks_drains (2 * totalDeps s + 2)).1 s i (le_refl _) hi
  exact chain_marked
    (fun u v hv hm =>
      (markF_edges (2 * totalDeps s + 2)).1 s i u v (le_refl _) hv hm)
    i j h hmd.1 hmd.2

theorem markIrreplaceable_monotone (s : AllocStore) (i k : Nat)
    (h : isMarked s k = true) : isMarked (markIrreplaceable s i) k = true :=
  shrink_marked (markIrreplaceable_shrink s i) h

theorem foldl_inv {α : Type _} {β : Type _} (P : α → Prop) (step : α → β → α)
    (l : List β) (a : α) (h : ∀ x b, P x → P (step x b)) (h0 : P a) :
    P (l.foldl step a) := by
  induction l generalizing a with
  | nil => exact h0
  | cons b rest ih => exact ih (step a b) (h a b h0)

theorem isMarked_append (l : AllocStore) (x : Allocation) (k : Nat)
    (h : isMarked l k = true) : isMarked (l ++ [x]) k = true := by
  unfold isMarked at h ⊢
  rcases hx : l[k]? with _ | y
  · rw [hx] at h
    exact absurd h (by simp)
  · rw [hx] at h
    rw [List.getElem?_append_left (List.getElem?_eq_some.mp hx).1, hx]
    exact h

theorem ensureUsedState_allocs (gs : GraphState) (b i : Nat) :
    (ensureUsedState gs b i).allocs = gs.allocs := by
  rcases h : (getAState gs b i).used with _ | u
  · simp only [ensureUsedState, h]
    exact setAState_allocs _ _ _ _
  · simp only [ensureUsedState, h]

theorem markAttributeWritten_allocs (gs : GraphState) (b i o : Nat) :
    (markAttributeWritten gs b i o).allocs = gs.allocs := by
  rcases h : (getAState (ensureUsedState gs b i) b i).used with _ | u
  · simp only [markAttributeWritten, h]
    exact ensureUsedState_allocs gs b i
  · simp only [markAttributeWritten, h]
    rw [setAState_allocs]
    exact ensureUsedState_allocs gs b i

theorem addTransformForBB_allocs (gs : GraphState) (b tid : Nat) :
    (addTransformForBB gs b tid).allocs = gs.allocs := rfl

theorem pushMaterialization_allocs (gs : GraphState) (b i tid : Nat) :
    (pushMaterialization gs b i tid).allocs = gs.allocs :=
  setAState_allocs _ _ _ _

theorem handleMaterializedUsages_allocs (g : SpeshGraph) (gs : GraphState)
    (b : Nat) (reads : List Operand) :
    (handleMaterializedUsages g gs b reads).allocs = gs.allocs := by
  unfold handleMaterializedUsages
  refine foldl_inv (fun x => x.allocs = gs.allocs) _ reads gs (fun x o hx => ?_) rfl
  rcases (getFacts g o).peaAllocation with _ | ai
  · exact hx
  · rcases hxa : x.allocs[ai]? with _ | a
    · simpa [hxa] using hx
    · simp only [hxa]
      by_cases hirr : a.irreplaceable
      · simpa [hirr] using hx
      · simp only [hirr, Bool.not_false, if_true]
        refine foldl_inv (fun y => y.allocs = gs.allocs) _ _ x (fun y tid hy => ?_) hx
        rcases y.transforms[tid]? with _ | t
        · exact hy
        · exact hy

theorem materializeAttributes_allocs (g : SpeshGraph) (b insId : Nat) (fuel : Nat) :
    ∀ gs ai, (materializeAttributes g b insId fuel gs ai).allocs = gs.allocs := by
  induction fuel with
  | zero => intro gs ai; rfl
  | succ f ih =>
    intro gs ai
    unfold materializeAttributes
    refine foldl_inv (fun x => x.allocs = gs.allocs) _ _ gs (fun x hypReg hx => ?_) rfl
    rcases getShadowFactsH x hypReg with _ | sf
    · exact hx
    · by_cases htr : allocationTracked x b sf.peaAllocation
      · simp only [htr, if_true]
        rcases sf.peaAllocation with _ | attrAi
        · exact hx
        · rw [addTransformForBB_allocs, ih, pushMaterialization_allocs]
          simp only
          rw [ensureUsedState_allocs]
          exact hx
      · simp only [htr]
        simpa using hx

theorem realObjectRequired_marked_mono (g : SpeshGraph) (gs : GraphState)
    (b insId : Nat) (o : Operand) (cm : Bool) (k : Nat)
    (h : isMarked gs.allocs k = true) :
    isMarked (realObjectRequired g gs b insId o cm).allocs k = true := by
  rcases hfa : (getFacts g o).peaAllocation with _ | ai
  · simp only [realObjectRequired, hfa]
    exact h
  · rcases htr : allocationTracked gs b (some ai) with _ | _
    · simp only [realObjectRequired, hfa, htr, Bool.false_eq_true, if_false]
      exact h
    · rcases hw : (cm && (if cm = true then worthMaterializing g gs b ai else false))
          with _ | _
      · simp only [realObjectRequired, hfa, htr, if_true, hw, Bool.false_eq_true,
          if_false]
        exact markIrreplaceable_monotone _ ai k h
      · simp only [realObjectRequired, hfa, htr, if_true, hw]
        rw [addTransformForBB_allocs, materializeAttributes_allocs,
          pushMaterialization_allocs]
        simp only
        rw [ensureUsedState_allocs]
        exact h

theorem unhandledInstruction_marked_mono (g : SpeshGraph) (gs : GraphState)
    (b insId : Nat) (reads : List Operand) (k : Nat)
    (h : isMarked gs.allocs k = true) :
    isMarked (unhandledInstruction g gs b insId reads).allocs k = true := by
  unfold unhandledInstruction
  exact foldl_inv (fun x => isMarked x.allocs k = true) _ reads gs
    (fun x o hx => realObjectRequired_marked_mono g x b insId o true k hx) h

theorem tryTrackAllocation_marked_mono (gs : GraphState) (b insId : Nat)
    (reg : Operand) (st : STableModel) (k : Nat)
    (h : isMarked gs.allocs k = true) :
    isMarked (tryTrackAllocation gs b insId reg st).2.allocs k = true := by
  unfold tryTrackAllocation
  by_cases hrepr : st.reprId = ReprId.P6opq
  · simp only [hrepr, if_true]
    rcases hassign : assignAttrRegs st.attrs gs.latestHypReg with ⟨ro, c2⟩
    rcases ro with _ | ⟨regs, bi⟩
    · exact h
    · simp only [markAllocationSeen, setAState_allocs, addTrackedRegister]
      exact isMarked_append _ _ k h
  · simp only [hrepr, if_false]
    exact h

theorem createShadowFactsH_allocs (gs : GraphState) (idx : Nat) :
    (createShadowFactsH gs idx).allocs = gs.allocs := by
  rcases h : getShadowFactsH gs idx with _ | f
  · simp only [createShadowFactsH, h]
  · simp only [createShadowFactsH, h]

theorem updateShadowFactsH_allocs (gs : GraphState) (idx : Nat) (f : Facts → Facts) :
    (updateShadowFactsH gs idx f).allocs = gs.allocs := by
  unfold updateShadowFactsH
  rcases h : gs.shadowFacts[gs.shadowFacts.findIdx
      (fun sf => sf.isHypothetical && sf.hypRegIdx = idx)]? with _ | sf
  · simp only [h]
  · simp only [h]

theorem isMarked_set_preserve (l : AllocStore) (ai : Nat) (b : Allocation) (k : Nat)
    (hb : b.irreplaceable = (l.getD ai default).irreplaceable)
    (h : isMarked l k = true) : isMarked (l.set ai b) k = true := by
  by_cases hk : ai = k
  · subst hk
    unfold isMarked at h ⊢
    rcases hy : l[ai]? with _ | y
    · rw [hy] at h
      exact absurd h (by simp)
    · rw [hy] at h
      rw [List.getElem?_set_self (List.getElem?_eq_some.mp hy).1]
      rw [List.getD_eq_getElem?_getD, hy] at hb
      simp only [Option.getD_some] at hb
      show b.irreplaceable = true
      rw [hb]
      exact h
  · unfold isMarked at h ⊢
    rw [List.getElem?_set_ne hk]
    exact h

theorem bindObjShadow_marked_mono (gs : GraphState) (bbIdx hypReg ai : Nat)
    (a : Allocation) (srcFacts : Facts) (k : Nat)
    (ha : a = gs.allocs.getD ai default)
    (h : isMarked gs.allocs k = true) :
    isMarked (bindObjShadow gs bbIdx hypReg ai a srcFacts).1.allocs k = true := by
  have hall : (updateShadowFactsH (createShadowFactsH gs hypReg) hypReg
      (fun f => copyFactsResolved f srcFacts)).allocs = gs.allocs := by
    rw [updateShadowFactsH_allocs, createShadowFactsH_allocs]
  rcases hfa : srcFacts.peaAllocation with _ | srcAi
  · simp only [bindObjShadow, hfa, allocationTracked, Bool.false_eq_true, if_false]
    rw [hall]
    exact h
  · rcases htr : allocationTracked (updateShadowFactsH (createShadowFactsH gs hypReg)
        hypReg (fun f => copyFactsResolved f srcFacts)) bbIdx (some srcAi) with _ | _
    · simp only [bindObjShadow, hfa, htr, Bool.false_eq_true, if_false]
      rw [hall]
      exact h
    · simp only [bindObjShadow, hfa, htr, if_true]
      rw [updateShadowFactsH_allocs, hall]
      refine isMarked_set_preserve _ ai _ k ?_ h
      rw [ha]

theorem analyzeIns_marked_mono (g : SpeshGraph) (gs : GraphState) (bbIdx : Nat)
    (node : InsNode) (found : Nat) (k : Nat)
    (h : isMarked gs.allocs k = true) :
    isMarked ((analyzeIns g gs bbIdx node found).2.1).allocs k = true := by
  have hm : isMarked (handleMaterializedUsages g gs bbIdx
      (readOperands node.ins)).allocs k = true := by
    rw [handleMaterializedUsages_allocs]
    exact h
  rcases node with ⟨nid, ins⟩
  cases ins with
  | sp_fastcreate dst size sslot =>
    rcases htt : tryTrackAllocation (handleMaterializedUsages g gs bbIdx
        (readOperands (Ins.sp_fastcreate dst size sslot))) bbIdx nid dst
        (g.speshSlots.getD sslot default) with ⟨ro, gs2⟩
    have hg2 : isMarked gs2.allocs k = true := by
      have := tryTrackAllocation_marked_mono (handleMaterializedUsages g gs bbIdx
        (readOperands (Ins.sp_fastcreate dst size sslot))) bbIdx nid dst
        (g.speshSlots.getD sslot default) k hm
      rw [htt] at this
      exact this
    rcases ro with _ | ai
    · simp only [analyzeIns, htt]
      exact hg2
    · simp only [analyzeIns, htt, addTransformForBB_allocs]
      exact hg2
  | sp_materialize_bi dst size sslot offset src cacheIdx =>
    rcases htt : tryTrackAllocation (handleMaterializedUsages g gs bbIdx
        (readOperands (Ins.sp_materialize_bi dst size sslot offset src cacheIdx)))
        bbIdx nid dst (g.speshSlots.getD sslot default) with ⟨ro, gs2⟩
    have hg2 : isMarked gs2.allocs k = true := by
      have := tryTrackAllocation_marked_mono (handleMaterializedUsages g gs bbIdx
        (readOperands (Ins.sp_materialize_bi dst size sslot offset src cacheIdx)))
        bbIdx nid dst (g.speshSlots.getD sslot default) k hm
      rw [htt] at this
      exact this
    rcases ro with _ | ai
    · simp only [analyzeIns, htt]
      exact hg2
    · simp only [analyzeIns, htt, addTransformForBB_allocs]
      exact hg2
  | set dst src =>
    rcases hfa : (getFacts g src).peaAllocation with _ | ai
    · simp only [analyzeIns, hfa, allocationTracked, Bool.false_eq_true, if_false]
      exact hm
    · rcases htr : allocationTracked (handleMaterializedUsages g gs bbIdx
          (readOperands (Ins.set dst src))) bbIdx (some ai) with _ | _
      · simp only [analyzeIns, hfa, htr, Bool.false_eq_true, if_false]
        exact hm
      · simp only [analyzeIns, hfa, htr, if_true, addTransformForBB_allocs]
        exact hm
  | sp_bind p6o objBind kind target offsetLit src =>
    rcases hfa : (getFacts g target).peaAllocation with _ | ai
    · cases objBind with
      | false =>
        simp only [analyzeIns, hfa, allocationTracked, Bool.false_eq_true, if_false]
        exact hm
      | true =>
        simp only [analyzeIns, hfa, allocationTracked, Bool.false_eq_true, if_false]
        exact realObjectRequired_marked_mono _ _ _ _ _ _ k hm
    · rcases htr : allocationTracked (handleMaterializedUsages g gs bbIdx
          (readOperands (Ins.sp_bind p6o objBind kind target offsetLit src))) bbIdx
          (some ai) with _ | _
      · cases objBind with
        | false =>
          simp only [analyzeIns, hfa, htr, Bool.false_eq_true, if_false]
          exact hm
        | true =>
          simp only [analyzeIns, hfa, htr, Bool.false_eq_true, if_false]
          exact realObjectRequired_marked_mono _ _ _ _ _ _ k hm
      · cases objBind with
        | false =>
          simp only [analyzeIns, hfa, htr, if_true, Bool.false_eq_true, if_false,
            markAttributeWritten_allocs, addTransformForBB_allocs]
          exact hm
        | true =>
          rcases hbs : bindObjShadow (handleMaterializedUsages g gs bbIdx
              (readOperands (Ins.sp_bind p6o true kind target offsetLit src))) bbIdx
              (attributeOffsetToReg ((handleMaterializedUsages g gs bbIdx
                (readOperands (Ins.sp_bind p6o true kind target offsetLit src))).allocs.getD
                  ai default)
                (if p6o then offsetLit else offsetLit - mvmObjectSize)) ai
              ((handleMaterializedUsages g gs bbIdx
                (readOperands (Ins.sp_bind p6o true kind target offsetLit src))).allocs.getD
                  ai default)
              (getFacts g src) with ⟨gs2, ta⟩
          have hg2 : isMarked gs2.allocs k = true := by
            have := bindObjShadow_marked_mono (handleMaterializedUsages g gs bbIdx
              (readOperands (Ins.sp_bind p6o true kind target offsetLit src))) bbIdx
              (attributeOffsetToReg ((handleMaterializedUsages g gs bbIdx
                (readOperands (Ins.sp_bind p6o true kind target offsetLit src))).allocs.getD
                  ai default)
                (if p6o then offsetLit else offsetLit - mvmObjectSize)) ai
              ((handleMaterializedUsages g gs bbIdx
                (readOperands (Ins.sp_bind p6o true kind target offsetLit src))).allocs.getD
                  ai default)
              (getFacts g src) k rfl hm
            rw [hbs] at this
            exact this
          simp only [analyzeIns, hfa, htr, if_true, hbs,
            markAttributeWritten_allocs, addTransformForBB_allocs]
          exact hg2
  | argIns op reads =>
    simp only [analyzeIns]
    exact unhandledInstruction_marked_mono _ _ _ _ _ k hm
  | otherIns writes reads =>
    simp only [analyzeIns]
    exact unhandledInstruction_marked_mono _ _ _ _ _ k hm

theorem setupOneAlloc_snd (bbStates : List BBState) (preds : List Nat)
    (allocs : AllocStore) (i : Nat) :
    (setupOneAlloc bbStates preds allocs i).2 = allocs ∨
    (setupOneAlloc bbStates preds allocs i).2 = markIrreplaceable allocs i := by
  simp only [setupOneAlloc]
  split_ifs with h1 h2
  · exact Or.inr rfl
  · exact Or.inr rfl
  · exact Or.inl rfl

theorem setupOneAlloc_shrink (bbStates : List BBState) (preds : List Nat)
    (allocs : AllocStore) (i : Nat) :
    Shrink allocs (setupOneAlloc bbStates preds allocs i).2 := by
  rcases setupOneAlloc_snd bbStates preds allocs i with h | h
  · rw [h]
    exact shrink_refl allocs
  · rw [h]
    exact markIrreplaceable_shrink allocs i

theorem setupAllocLoop_shrink (bbStates : List BBState) (preds : List Nat) :
    ∀ (l : List Nat) (allocs : AllocStore),
      Shrink allocs (setupAllocLoop bbStates preds allocs l).2 := by
  intro l
  induction l with
  | nil => intro allocs; exact shrink_refl allocs
  | cons i rest ih =>
    intro allocs
    rcases h1 : setupOneAlloc bbStates preds allocs i with ⟨st, allocs2⟩
    rcases h2 : setupAllocLoop bbStates preds allocs2 rest with ⟨sts, allocs3⟩
    have hshr1 : Shrink allocs allocs2 := by
      have := setupOneAlloc_shrink bbStates preds allocs i
      rw [h1] at this
      exact this
    have hshr2 : Shrink allocs2 allocs3 := by
      have := ih allocs2
      rw [h2] at this
      exact this
    simp only [setupAllocLoop, h1, h2]
    exact shrink_trans hshr1 hshr2

theorem setupBBState_shrink (gs : GraphState) (preds : List Nat) (bbIdx : Nat) :
    Shrink gs.allocs (setupBBState gs preds bbIdx).allocs := by
  rcases h : setupAllocLoop gs.bbStates preds gs.allocs
      (List.range gs.allocs.length) with ⟨sts, allocs2⟩
  have := setupAllocLoop_shrink gs.bbStates preds (List.range gs.allocs.length) gs.allocs
  rw [h] at this
  simp only [setupBBState, h]
  exact this

theorem setupBBState_marked_mono (gs : GraphState) (preds : List Nat) (bbIdx k : Nat)
    (h : isMarked gs.allocs k = true) :
    isMarked (setupBBState gs preds bbIdx).allocs k = true :=
  shrink_marked (setupBBState_shrink gs preds bbIdx) h

theorem analyzeInsList_marked_mono (bbIdx : Nat) :
    ∀ (l : List InsNode) (found : Nat) (gs : GraphState) (g : SpeshGraph) (k : Nat),
      isMarked gs.allocs k = true →
      isMarked ((analyzeInsList bbIdx l found gs g).2.1).allocs k = true := by
  intro l
  induction l with
  | nil =>
    intro found gs g k h
    exact h
  | cons node rest ih =>
    intro found gs g k h
    rcases h1 : analyzeIns g gs bbIdx node found with ⟨found2, gs2, g2⟩
    have hg2 : isMarked gs2.allocs k = true := by
      have := analyzeIns_marked_mono g gs bbIdx node found k h
      rw [h1] at this
      exact this
    simp only [analyzeInsList, h1]
    exact ih found2 gs2 g2 k hg2

theorem analyzeLoop_marked_mono (n : Nat) (rpo : List Nat) :
    ∀ (fuel : Nat) (i : Nat) (seen : List Bool) (found : Nat) (gs : GraphState)
      (g : SpeshGraph) (k : Nat), fuel = n - i →
      isMarked gs.allocs k = true →
      isMarked ((analyzeLoop n rpo i seen found gs g).2.1).allocs k = true := by
  intro fuel
  induction fuel with
  | zero =>
    intro i seen found gs g k hfuel h
    rw [analyzeLoop]
    have : ¬ i < n := by omega
    simp only [this, dif_neg, not_false_iff]
    exact h
  | succ f ih =>
    intro i seen found gs g k hfuel h
    rw [analyzeLoop]
    by_cases hlt : i < n
    · simp only [hlt, dif_pos]
      set bbIdx := rpo.getD i 0 with hbbIdx
      set bb := g.bbs.getD bbIdx default with hbb
      by_cases habort : bb.preds.any
          (fun p => !(seen.getD (g.bbs.getD p default).rpoIdx false))
      · simp only [habort, if_true]
        exact h
      · simp only [habort, if_false]
        rcases h1 : analyzeInsList bbIdx bb.instructions found
            (setupBBState gs bb.preds bbIdx) g with ⟨found2, gs2, g2⟩
        have hg2 : isMarked gs2.allocs k = true := by
          have := analyzeInsList_marked_mono bbIdx bb.instructions found
            (setupBBState gs bb.preds bbIdx) g k
            (setupBBState_marked_mono gs bb.preds bbIdx k h)
          rw [h1] at this
          exact this
        simp only [h1]
        exact ih (i + 1) (seen.set bb.rpoIdx true) found2 gs2 g2 k (by omega) hg2
    · simp only [hlt, dif_neg, not_false_iff]
      exact h

theorem analyze_marked_mono (g : SpeshGraph) (gs : GraphState) (k : Nat)
    (h : isMarked gs.allocs k = true) :
    isMarked ((analyze g gs).2.1).allocs k = true := by
  unfold analyze
  simp only
  exact analyzeLoop_marked_mono g.bbs.length g.rpo (g.bbs.length - 0) 0
    (List.replicate g.bbs.length false) 0 { gs with rpo := g.rpo } g k rfl h

theorem allocateConcreteRegisters_snd_allocs (g : SpeshGraph) (gs : GraphState)
    (ai : Nat) :
    (allocateConcreteRegisters g gs ai).2.allocs = gs.allocs := by
  unfold allocateConcreteRegisters
  refine foldl_inv (fun acc => acc.2.allocs = gs.allocs) _ _ (g, gs)
    (fun x b hx => ?_) rfl
  rcases hx2 : getUniqueReg x.1 with ⟨g2, r⟩
  simp only [hx2]
  exact hx

theorem applyTransform_snd_allocs (g : SpeshGraph) (gs : GraphState)
    (bbIdx tid : Nat) :
    (applyTransform g gs bbIdx tid).2.allocs = gs.allocs := by
  rcases ht : gs.transforms[tid]? with _ | t
  · simp only [applyTransform, ht]
  · rcases t with ⟨tall, tkind, ttargets, tused⟩
    simp only [applyTransform, ht]
    split_ifs with hskip
    · rfl
    · cases tkind with
      | deleteFastcreate insId st =>
        rcases tall with _ | ai
        · rfl
        · exact allocateConcreteRegisters_snd_allocs g gs ai
      | unmaterializeBI insId st =>
        rcases tall with _ | ai
        · rfl
        · dsimp only
          split
          · exact allocateConcreteRegisters_snd_allocs g gs ai
          · exact allocateConcreteRegisters_snd_allocs g gs ai
      | deleteSet insId => rfl
      | bindattrToSet insId hypRegIdx targetAllocation =>
        dsimp only
        split_ifs with h2
        · rfl
        · split <;> rfl
      | materialize priorTo =>
        rcases ttargets with _ | ⟨it, ats⟩
        · rfl
        · rcases tall with _ | ai
          · rfl
          · dsimp only
            split
            · rfl
            · rfl

theorem marked_getD {l : AllocStore} {j : Nat} (h : isMarked l j = true) :
    (l.getD j default).irreplaceable = true := by
  unfold isMarked at h
  rcases hy : l[j]? with _ | y
  · rw [hy] at h
    exact absurd h (by simp)
  · rw [hy] at h
    rw [List.getD_eq_getElem?_getD, hy]
    exact h

theorem applyTransform_noop_of_irr (g : SpeshGraph) (gs : GraphState)
    (bbIdx tid : Nat) (t : Transformation) (ai : Nat)
    (ht : gs.transforms[tid]? = some t) (hall : t.allocation = some ai)
    (hirr : (gs.allocs.getD ai default).irreplaceable = true) :
    applyTransform g gs bbIdx tid = (g, gs) := by
  simp only [applyTransform, ht, hall, hirr, if_true]

/-- C3: mark_irreplaceable sets the irreplaceable flag on the allocation
and transitively on every allocation reachable from it through
escape-dependency chains, and once set the flag is never cleared: the
marking itself, the merge engine, the whole analysis walk, and the
transformer all preserve it. -/
theorem C3_mark_irreplaceable (s : AllocStore) (i j : Nat) (h : DepReach s i j) :
    isMarked (markIrreplaceable s i) j = true ∧
    (∀ k, isMarked s k = true → isMarked (markIrreplaceable s i) k = true) ∧
    (∀ (gs : GraphState) (preds : List Nat) (bbIdx k : Nat),
      isMarked gs.allocs k = true →
      isMarked (setupBBState gs preds bbIdx).allocs k = true) ∧
    (∀ (g : SpeshGraph) (gs : GraphState) (k : Nat),
      isMarked gs.allocs k = true →
      isMarked ((analyze g gs).2.1).allocs k = true) ∧
    (∀ (g : SpeshGraph) (gs : GraphState) (bbIdx tid : Nat),
      (applyTransform g gs bbIdx tid).2.allocs = gs.allocs) :=
  ⟨markIrreplaceable_marks h,
   fun k => markIrreplaceable_monotone s i k,
   fun gs preds bbIdx k => setupBBState_marked_mono gs preds bbIdx k,
   fun g gs k => analyze_marked_mono g gs k,
   fun g gs bbIdx tid => applyTransform_snd_allocs g gs bbIdx tid⟩

/-- Witness for C3: in the three-allocation store with edges 0 -> 1 -> 2,
allocation 2 is dependency-reachable from 0 and ends up marked. -/
theorem C3_mark_irreplaceable_witness :
    DepReach exStore3 0 2 ∧ isMarked (markIrreplaceable exStore3 0) 2 = true := by
  have h1 : DepReach exStore3 2 2 := DepReach.refl 2 (by decide)
  have h2 : DepReach exStore3 1 2 :=
    DepReach.step 1 2 2 { (default : Allocation) with index := 1, escapeDeps := [2] }
      (by decide) (by decide) h1
  have h3 : DepReach exStore3 0 2 :=
    DepReach.step 0 1 2 { (default : Allocation) with index := 0, escapeDeps := [1, 2] }
      (by decide) (by decide) h2
  exact ⟨h3, (C3_mark_irreplaceable exStore3 0 2 h3).1⟩

/-- C4: apply_transform refuses to act for a planned transformation whose
owning allocation carries the irreplaceable flag by application time, and
in particular every transformation owned by an allocation that was
dependency-reachable when mark_irreplaceable ran is a no-op. -/
theorem C4_apply_transform_noop (g : SpeshGraph) (gs : GraphState) (bbIdx tid : Nat)
    (t : Transformation) (ai : Nat)
    (ht : gs.transforms[tid]? = some t) (hall : t.allocation = some ai)
    (hirr : (gs.allocs.getD ai default).irreplaceable = true) :
    applyTransform g gs bbIdx tid = (g, gs) ∧
    (∀ (s : AllocStore) (i j tid2 : Nat) (t2 : Transformation),
      gs.allocs = markIrreplaceable s i → DepReach s i j →
      gs.transforms[tid2]? = some t2 → t2.allocation = some j →
      applyTransform g gs bbIdx tid2 = (g, gs)) := by
  refine ⟨applyTransform_noop_of_irr g gs bbIdx tid t ai ht hall hirr, ?_⟩
  intro s i j tid2 t2 hgs hreach ht2 hall2
  refine applyTransform_noop_of_irr g gs bbIdx tid2 t2 j ht2 hall2 ?_
  rw [hgs]
  exact marked_getD (markIrreplaceable_marks hreach)

/-- Witness for C4 at a one-transformation workspace whose allocation is
irreplaceable. -/
theorem C4_apply_transform_noop_witness :
    exGS4.transforms[0]? = some ⟨some 0, TransformKind.deleteSet 0, [], none⟩ ∧
    (exGS4.allocs.getD 0 default).irreplaceable = true ∧
    applyTransform exGTriv exGS4 0 0 = (exGTriv, exGS4) := by
  refine ⟨by decide, by decide, ?_⟩
  exact (C4_apply_transform_noop exGTriv exGS4 0 0
    ⟨some 0, TransformKind.deleteSet 0, [], none⟩ 0 (by decide) rfl (by decide)).1

/-- Witness for C7: the attribute-free P6opaque STable is tracked from the
initial workspace; the STable with an unhandled attribute kind is not. -/
theorem C7_try_track_allocation_witness :
    (0 : Nat) < (initGS exG1).bbStates.length ∧
    (tryTrackAllocation (initGS exG1) 0 0 ⟨0, 0⟩ exStOk).1.isSome = true ∧
    (tryTrackAllocation (initGS exG1) 0 0 ⟨0, 0⟩ exStBad).1.isSome = false := by
  have h := C7_try_track_allocation (initGS exG1) 0 0 ⟨0, 0⟩ exStOk (by decide)
  exact ⟨by decide, h.1.mpr (by decide), by decide⟩

theorem foldl_inv_mem {α : Type _} {β : Type _} (P : α → Prop) (step : α → β → α)
    (l : List β) (a : α) (h : ∀ x b, b ∈ l → P x → P (step x b)) (h0 : P a) :
    P (l.foldl step a) := by
  induction l generalizing a with
  | nil => exact h0
  | cons b rest ih =>
    exact ih (step a b) (fun x c hc hx => h x c (List.mem_cons_of_mem b hc) hx)
      (h a b (List.mem_cons_self b rest) h0)

/-- The evolution of the transform store under handle_materialized_usages:
every field of the workspace except the transform records is untouched (in
particular no new transformation is planned anywhere), and every transform
record evolves by a sequence of add_materialization_target_if_missing
steps, each fed by one of the read registers of the instruction. -/
theorem handleMaterializedUsages_spec (g : SpeshGraph) (gs : GraphState)
    (bbIdx : Nat) (reads : List Operand) :
    (handleMaterializedUsages g gs bbIdx reads).allocs = gs.allocs ∧
    (handleMaterializedUsages g gs bbIdx reads).bbStates = gs.bbStates ∧
    (handleMaterializedUsages g gs bbIdx reads).shadowFacts = gs.shadowFacts ∧
    (handleMaterializedUsages g gs bbIdx reads).trackedRegisters =
      gs.trackedRegisters ∧
    (handleMaterializedUsages g gs bbIdx reads).transforms.length =
      gs.transforms.length ∧
    (∀ (tid : Nat) (t : Transformation), gs.transforms[tid]? = some t →
      ∃ users : List Operand, (∀ u ∈ users, u ∈ reads) ∧
        (handleMaterializedUsages g gs bbIdx reads).transforms[tid]? =
          some (users.foldl addMaterializationTargetIfMissing t)) := by
  unfold handleMaterializedUsages
  refine foldl_inv_mem (fun x =>
      x.allocs = gs.allocs ∧ x.bbStates = gs.bbStates ∧
      x.shadowFacts = gs.shadowFacts ∧ x.trackedRegisters = gs.trackedRegisters ∧
      x.transforms.length = gs.transforms.length ∧
      (∀ (tid : Nat) (t : Transformation), gs.transforms[tid]? = some t →
        ∃ users : List Operand, (∀ u ∈ users, u ∈ reads) ∧
          x.transforms[tid]? = some (users.foldl addMaterializationTargetIfMissing t)))
    _ reads gs (fun x user huser hx => ?_)
    ⟨rfl, rfl, rfl, rfl, rfl, fun tid t ht => ⟨[], by simp, by simpa using ht⟩⟩
  rcases (getFacts g user).peaAllocation with _ | ai
  · exact hx
  · rcases hxa : x.allocs[ai]? with _ | a
    · simpa [hxa] using hx
    · simp only [hxa]
      by_cases hirr : a.irreplaceable
      · simpa [hirr] using hx
      · simp only [hirr, Bool.not_false, if_true]
        refine foldl_inv (fun y =>
            y.allocs = gs.allocs ∧ y.bbStates = gs.bbStates ∧
            y.shadowFacts = gs.shadowFacts ∧ y.trackedRegisters = gs.trackedRegisters ∧
            y.transforms.length = gs.transforms.length ∧
            (∀ (tid : Nat) (t : Transformation), gs.transforms[tid]? = some t →
              ∃ users : List Operand, (∀ u ∈ users, u ∈ reads) ∧
                y.transforms[tid]? =
                  some (users.foldl addMaterializationTargetIfMissing t)))
          _ _ x (fun y tid2 hy => ?_) hx
        rcases hyt : y.transforms[tid2]? with _ | t2
        · simpa [hyt] using hy
        · simp only [hyt]
          obtain ⟨ha1, ha2, ha3, ha4, ha5, ha6⟩ := hy
          refine ⟨ha1, ha2, ha3, ha4, by rw [List.length_set]; exact ha5, ?_⟩
          intro tid t ht
          obtain ⟨users, husers, hcur⟩ := ha6 tid t ht
          by_cases htid : tid2 = tid
          · subst htid
            have hlt := (List.getElem?_eq_some.mp hyt).1
            have ht2eq : t2 = users.foldl addMaterializationTargetIfMissing t := by
              rw [hcur] at hyt
              exact (Option.some_inj.mp hyt).symm
            refine ⟨users ++ [user], ?_, ?_⟩
            · intro u hu
              rcases List.mem_append.mp hu with hu | hu
              · exact husers u hu
              · rw [List.mem_singleton.mp hu]
                exact huser
            · rw [List.foldl_append]
              simp only [List.foldl_cons, List.foldl_nil]
              rw [List.getElem?_set_self hlt, ht2eq]
          · exact ⟨users, husers, by rw [List.getElem?_set_ne htid]; exact hcur⟩

/-- C9: allocation_tracked demands a live allocation record, an unset
irreplaceable flag, and no materialization recorded for the allocation in
the block; once a materialization is recorded, real_object_required plans
nothing further for the allocation, and handle_materialized_usages only
reshapes existing materialization target lists, each step either skipping
a consumer register already present (same original and version) or
prepending it. -/
theorem C9_allocation_tracked (gs : GraphState) (bbIdx ai : Nat)
    (h : allocationTracked gs bbIdx (some ai) = true) :
    (∃ a, gs.allocs[ai]? = some a ∧ a.irreplaceable = false ∧
      (getAState gs bbIdx a.index).materializations = []) ∧
    (∀ (g : SpeshGraph) (gs2 : GraphState) (bbIdx2 insId : Nat) (o : Operand)
        (cm : Bool) (ai2 : Nat) (a2 : Allocation),
      (getFacts g o).peaAllocation = some ai2 → gs2.allocs[ai2]? = some a2 →
      (getAState gs2 bbIdx2 a2.index).materializations ≠ [] →
      realObjectRequired g gs2 bbIdx2 insId o cm = gs2) ∧
    (∀ (t : Transformation) (user : Operand),
      (t.targets.any (fun mt => targetMatches mt user) = true →
        addMaterializationTargetIfMissing t user = t) ∧
      (t.targets.any (fun mt => targetMatches mt user) = false →
        addMaterializationTargetIfMissing t user =
          { t with targets := MTarget.concrete user :: t.targets })) ∧
    (∀ (g : SpeshGraph) (gs2 : GraphState) (bbIdx2 : Nat) (reads : List Operand),
      (handleMaterializedUsages g gs2 bbIdx2 reads).bbStates = gs2.bbStates ∧
      (∀ (tid : Nat) (t : Transformation), gs2.transforms[tid]? = some t →
        ∃ users : List Operand, (∀ u ∈ users, u ∈ reads) ∧
          (handleMaterializedUsages g gs2 bbIdx2 reads).transforms[tid]? =
            some (users.foldl addMaterializationTargetIfMissing t))) := by
  refine ⟨?_, ?_, ?_, ?_⟩
  · simp only [allocationTracked] at h
    rcases hxa : gs.allocs[ai]? with _ | a
    · simp only [hxa] at h
      exact absurd h (by simp)
    · simp only [hxa, Bool.and_eq_true] at h
      refine ⟨a, rfl, by simpa using h.1, ?_⟩
      have h2 := h.2
      rwa [List.isEmpty_iff] at h2
  · intro g gs2 bbIdx2 insId o cm ai2 a2 hfa ha2 hmats
    have hemp : (getAState gs2 bbIdx2 a2.index).materializations.isEmpty = false := by
      rcases hE : (getAState gs2 bbIdx2 a2.index).materializations.isEmpty with _ | _
      · rfl
      · exact absurd (List.isEmpty_iff.mp hE) hmats
    have htr : allocationTracked gs2 bbIdx2 (some ai2) = false := by
      simp only [allocationTracked, ha2, hemp, Bool.and_false]
    simp only [realObjectRequired, hfa, htr, Bool.false_eq_true, if_false]
  · intro t user
    constructor
    · intro hmatch
      simp only [addMaterializationTargetIfMissing, hmatch, if_true]
    · intro hmatch
      simp only [addMaterializationTargetIfMissing, hmatch, Bool.false_eq_true,
        if_false]
  · intro g gs2 bbIdx2 reads
    have h2 := handleMaterializedUsages_spec g gs2 bbIdx2 reads
    exact ⟨h2.2.1, h2.2.2.2.2.2⟩

/-- Witness for C9: the tracked allocation of exGS6 satisfies the
characterization; in exGS9, where a materialization is already planned,
real_object_required changes nothing, and a duplicate consumer register is
not appended to the target list. -/
theorem C9_allocation_tracked_witness :
    allocationTracked exGS6 0 (some 0) = true ∧
    realObjectRequired exG6 exGS9 0 5 ⟨0, 0⟩ true = exGS9 ∧
    addMaterializationTargetIfMissing
      ⟨some 0, TransformKind.materialize 0, [MTarget.concrete ⟨9, 0⟩], some (0, 0)⟩
      ⟨9, 0⟩ =
      ⟨some 0, TransformKind.materialize 0, [MTarget.concrete ⟨9, 0⟩], some (0, 0)⟩ := by
  have h := C9_allocation_tracked exGS6 0 0 (by decide)
  refine ⟨by decide, ?_, ?_⟩
  · exact h.2.1 exG6 exGS9 0 5 ⟨0, 0⟩ true 0
      { (default : Allocation) with index := 0, type := exStOk }
      (by decide) (by decide) (by decide)
  · exact (h.2.2.1 ⟨some 0, TransformKind.materialize 0,
      [MTarget.concrete ⟨9, 0⟩], some (0, 0)⟩ ⟨9, 0⟩).1 (by decide)

theorem getAState_setAState_ne (gs : GraphState) (b i : Nat) (st : BBAllocState)
    (b2 i2 : Nat) (h : ¬(b = b2 ∧ i = i2)) :
    getAState (setAState gs b i st) b2 i2 = getAState gs b2 i2 := by
  simp only [getAState, setAState]
  by_cases hb : b = b2
  · subst hb
    have hi : i ≠ i2 := fun hi => h ⟨rfl, hi⟩
    by_cases hlt : b < gs.bbStates.length
    · simp only [List.getD_eq_getElem?_getD, List.getElem?_set_self hlt]
      simp [← List.getD_eq_getElem?_getD, listSetD_getD_ne _ _ _ _ _ hi]
    · rw [List.set_eq_of_length_le (Nat.le_of_not_lt hlt)]
  · simp only [List.getD_eq_getElem?_getD, List.getElem?_set_ne hb]

theorem getAState_setAState (gs : GraphState) (b i : Nat) (st : BBAllocState)
    (b2 i2 : Nat) :
    getAState (setAState gs b i st) b2 i2 =
      if b = b2 ∧ i = i2 ∧ b < gs.bbStates.length then st
      else getAState gs b2 i2 := by
  by_cases hc : b = b2 ∧ i = i2 ∧ b < gs.bbStates.length
  · obtain ⟨hb, hi, hlt⟩ := hc
    subst hb; subst hi
    rw [getAState_setAState_self gs b i st hlt]
    simp [hlt]
  · rw [if_neg hc]
    by_cases hne : b = b2 ∧ i = i2
    · obtain ⟨hb, hi⟩ := hne
      subst hb; subst hi
      have hlt : ¬b < gs.bbStates.length := fun hlt => hc ⟨rfl, rfl, hlt⟩
      simp only [getAState, setAState]
      rw [List.set_eq_of_length_le (Nat.le_of_not_lt hlt)]
    · exact getAState_setAState_ne gs b i st b2 i2 hne

theorem ensureUsedState_transforms (gs : GraphState) (b i : Nat) :
    (ensureUsedState gs b i).transforms = gs.transforms := by
  rcases h : (getAState gs b i).used with _ | u
  · simp only [ensureUsedState, h]
    exact setAState_transforms _ _ _ _
  · simp only [ensureUsedState, h]

theorem pushMaterialization_transforms (gs : GraphState) (b i tid : Nat) :
    (pushMaterialization gs b i tid).transforms = gs.transforms :=
  setAState_transforms _ _ _ _

theorem addTransformForBB_transforms (gs : GraphState) (b tid : Nat) :
    (addTransformForBB gs b tid).transforms = gs.transforms := rfl

theorem getAState_transforms_update (gs : GraphState) (X : List Transformation)
    (b2 i2 : Nat) :
    getAState { gs with transforms := X } b2 i2 = getAState gs b2 i2 := rfl

theorem ensureUsedState_bbLen (gs : GraphState) (b i : Nat) :
    (ensureUsedState gs b i).bbStates.length = gs.bbStates.length := by
  rcases h : (getAState gs b i).used with _ | u
  · simp only [ensureUsedState, h]
    exact setAState_bbStates_length _ _ _ _
  · simp only [ensureUsedState, h]

theorem pushMaterialization_bbLen (gs : GraphState) (b i tid : Nat) :
    (pushMaterialization gs b i tid).bbStates.length = gs.bbStates.length :=
  setAState_bbStates_length _ _ _ _

theorem addTransformForBB_bbLen (gs : GraphState) (b tid : Nat) :
    (addTransformForBB gs b tid).bbStates.length = gs.bbStates.length := by
  simp [addTransformForBB]

theorem transExt_refl (a : GraphState) : TransExt a a :=
  ⟨[], by simp⟩

theorem transExt_trans {a c d : GraphState} (h1 : TransExt a c)
    (h2 : TransExt c d) : TransExt a d := by
  obtain ⟨e1, he1⟩ := h1
  obtain ⟨e2, he2⟩ := h2
  exact ⟨e1 ++ e2, by rw [he2, he1, List.append_assoc]⟩

theorem matsExt_refl (a : GraphState) : MatsExt a a :=
  fun b2 i2 => ⟨[], by simp⟩

theorem matsExt_trans {a c d : GraphState} (h1 : MatsExt a c)
    (h2 : MatsExt c d) : MatsExt a d := by
  intro b2 i2
  obtain ⟨e1, he1⟩ := h1 b2 i2
  obtain ⟨e2, he2⟩ := h2 b2 i2
  exact ⟨e1 ++ e2, by rw [he2, he1, List.append_assoc]⟩

theorem ensureUsedState_mats (gs : GraphState) (b i b2 i2 : Nat) :
    (getAState (ensureUsedState gs b i) b2 i2).materializations =
      (getAState gs b2 i2).materializations := by
  rcases h : (getAState gs b i).used with _ | u
  · simp only [ensureUsedState, h, getAState_setAState]
    by_cases hc : b = b2 ∧ i = i2 ∧ b < gs.bbStates.length
    · rw [if_pos hc]
      obtain ⟨hb, hi, _⟩ := hc
      subst hb; subst hi
      rfl
    · rw [if_neg hc]
  · simp only [ensureUsedState, h]

theorem pushMaterialization_matsExt (gs : GraphState) (b i tid : Nat) :
    MatsExt gs (pushMaterialization gs b i tid) := by
  intro b2 i2
  simp only [pushMaterialization, getAState_setAState]
  by_cases hc : b = b2 ∧ i = i2 ∧ b < gs.bbStates.length
  · rw [if_pos hc]
    obtain ⟨hb, hi, _⟩ := hc
    subst hb; subst hi
    exact ⟨[tid], rfl⟩
  · rw [if_neg hc]
    exact ⟨[], by simp⟩

theorem getAState_addTransformForBB (gs : GraphState) (b tid : Nat)
    (b2 i2 : Nat) :
    getAState (addTransformForBB gs b tid) b2 i2 = getAState gs b2 i2 := by
  simp only [addTransformForBB, getAState]
  by_cases hb : b < gs.bbStates.length
  · by_cases hbb : b = b2
    · subst hbb
      simp only [List.getD_eq_getElem?_getD, List.getElem?_set_self hb]
      rfl
    · simp only [List.getD_eq_getElem?_getD, List.getElem?_set_ne hbb]
  · rw [List.set_eq_of_length_le (Nat.le_of_not_lt hb)]

theorem transExt_addT {a c : GraphState} (b t : Nat) (h : TransExt a c) :
    TransExt a (addTransformForBB c b t) := by
  obtain ⟨e, he⟩ := h
  exact ⟨e, by rw [addTransformForBB_transforms, he]⟩

theorem transExt_push {a c : GraphState} (b i t : Nat) (h : TransExt a c) :
    TransExt a (pushMaterialization c b i t) := by
  obtain ⟨e, he⟩ := h
  exact ⟨e, by rw [pushMaterialization_transforms, he]⟩

theorem matsExt_addT {a c : GraphState} (b t : Nat) (h : MatsExt a c) :
    MatsExt a (addTransformForBB c b t) := by
  intro u v
  rw [getAState_addTransformForBB]
  exact h u v

theorem matsExt_push {a c : GraphState} (b i t : Nat) (h : MatsExt a c) :
    MatsExt a (pushMaterialization c b i t) :=
  matsExt_trans h (pushMaterialization_matsExt c b i t)

theorem materializeAttributes_bbLen (g : SpeshGraph) (b insId : Nat) (fuel : Nat) :
    ∀ gs ai, (materializeAttributes g b insId fuel gs ai).bbStates.length =
      gs.bbStates.length := by
  induction fuel with
  | zero => intro gs ai; rfl
  | succ f ih =>
    intro gs ai
    unfold materializeAttributes
    refine foldl_inv (fun x => x.bbStates.length = gs.bbStates.length) _ _ gs
      (fun x hypReg hx => ?_) rfl
    rcases getShadowFactsH x hypReg with _ | sf
    · exact hx
    · by_cases htr : allocationTracked x b sf.peaAllocation
      · simp only [htr, if_true]
        rcases sf.peaAllocation with _ | attrAi
        · exact hx
        · rw [addTransformForBB_bbLen, ih, pushMaterialization_bbLen]
          simp only
          rw [ensureUsedState_bbLen]
          exact hx
      · simp only [htr]
        simpa using hx

theorem materializeAttributes_transExt (g : SpeshGraph) (b insId : Nat)
    (fuel : Nat) :
    ∀ gs ai, TransExt gs (materializeAttributes g b insId fuel gs ai) := by
  induction fuel with
  | zero => intro gs ai; exact transExt_refl _
  | succ f ih =>
    intro gs ai
    unfold materializeAttributes
    refine foldl_inv (fun x => TransExt gs x) _ _ gs (fun x hypReg hx => ?_)
      (transExt_refl _)
    rcases getShadowFactsH x hypReg with _ | sf
    · exact hx
    · by_cases htr : allocationTracked x b sf.peaAllocation
      · simp only [htr, if_true]
        rcases sf.peaAllocation with _ | attrAi
        · exact hx
        · refine transExt_trans hx ?_
          refine transExt_addT _ _ (transExt_trans ?_ (ih _ attrAi))
          refine transExt_push _ _ _ ?_
          exact ⟨[⟨some attrAi, TransformKind.materialize insId,
              [MTarget.hyp hypReg], some (b, attrAi)⟩],
            by simp [ensureUsedState_transforms]⟩
      · simp only [htr]
        simpa using hx

theorem materializeAttributes_matsExt (g : SpeshGraph) (b insId : Nat)
    (fuel : Nat) :
    ∀ gs ai, MatsExt gs (materializeAttributes g b insId fuel gs ai) := by
  induction fuel with
  | zero => intro gs ai; exact matsExt_refl _
  | succ f ih =>
    intro gs ai
    unfold materializeAttributes
    refine foldl_inv (fun x => MatsExt gs x) _ _ gs (fun x hypReg hx => ?_)
      (matsExt_refl _)
    rcases getShadowFactsH x hypReg with _ | sf
    · exact hx
    · by_cases htr : allocationTracked x b sf.peaAllocation
      · simp only [htr, if_true]
        rcases sf.peaAllocation with _ | attrAi
        · exact hx
        · refine matsExt_trans hx ?_
          refine matsExt_addT _ _ (matsExt_trans ?_ (ih _ attrAi))
          refine matsExt_push _ _ _ ?_
          intro u v
          rw [getAState_transforms_update]
          exact ⟨[], by rw [ensureUsedState_mats, List.append_nil]⟩
      · simp only [htr]
        simpa using hx

theorem inBranchLoop_not_found (g : SpeshGraph) (gs : GraphState)
    (base check : Nat) (fuel : Nat) :
    ∀ i : Nat, ∀ depth : Int, g.bbs.length - i ≤ fuel →
    (∀ k, i ≤ k → k < g.bbs.length → gs.rpo.getD k 0 ≠ check) →
    inBranchLoop g gs base check i depth = true := by
  induction fuel with
  | zero =>
    intro i depth hf hk
    unfold inBranchLoop
    have hi : ¬i < g.bbs.length := by omega
    simp [hi]
  | succ f ih =>
    intro i depth hf hk
    unfold inBranchLoop
    by_cases hi : i < g.bbs.length
    · have hne : gs.rpo.getD i 0 ≠ check := hk i (Nat.le_refl i) hi
      simp only [hi, dif_pos, hne, if_false]
      exact ih (i + 1) _ (by omega) (fun k hk1 hk2 => hk k (by omega) hk2)
    · simp [hi]

theorem ror_plan_spec (g : SpeshGraph) (gsX : GraphState)
    (bbIdx insId fuel tid aIdx ai : Nat)
    (T0 : List Transformation) (tran : Transformation) (A0 : AllocStore)
    (hXT : gsX.transforms = T0 ++ [tran])
    (hXA : gsX.allocs = A0)
    (hbbX : bbIdx < gsX.bbStates.length) :
    (∃ ext, (addTransformForBB (materializeAttributes g bbIdx insId fuel
        (pushMaterialization gsX bbIdx aIdx tid) ai) bbIdx tid).transforms =
      T0 ++ tran :: ext) ∧
    tid ∈ (getAState (addTransformForBB (materializeAttributes g bbIdx insId
        fuel (pushMaterialization gsX bbIdx aIdx tid) ai) bbIdx tid) bbIdx
        aIdx).materializations ∧
    tid ∈ ((addTransformForBB (materializeAttributes g bbIdx insId fuel
        (pushMaterialization gsX bbIdx aIdx tid) ai) bbIdx
        tid).bbStates.getD bbIdx default).transformations ∧
    (addTransformForBB (materializeAttributes g bbIdx insId fuel
        (pushMaterialization gsX bbIdx aIdx tid) ai) bbIdx tid).allocs =
      A0 := by
  have hPmats : (getAState (pushMaterialization gsX bbIdx aIdx tid) bbIdx
      aIdx).materializations =
      (getAState gsX bbIdx aIdx).materializations ++ [tid] := by
    simp [pushMaterialization, getAState_setAState, hbbX]
  have hMlen : (materializeAttributes g bbIdx insId fuel
      (pushMaterialization gsX bbIdx aIdx tid) ai).bbStates.length =
      gsX.bbStates.length := by
    rw [materializeAttributes_bbLen, pushMaterialization_bbLen]
  refine ⟨?_, ?_, ?_, ?_⟩
  · obtain ⟨e, he⟩ := materializeAttributes_transExt g bbIdx insId fuel
      (pushMaterialization gsX bbIdx aIdx tid) ai
    refine ⟨e, ?_⟩
    rw [addTransformForBB_transforms, he, pushMaterialization_transforms, hXT,
      List.append_assoc, List.singleton_append]
  · obtain ⟨e, he⟩ := materializeAttributes_matsExt g bbIdx insId fuel
      (pushMaterialization gsX bbIdx aIdx tid) ai bbIdx aIdx
    rw [getAState_addTransformForBB, he, hPmats]
    simp
  · simp only [addTransformForBB]
    rw [List.getD_eq_getElem?_getD,
      List.getElem?_set_self (by rw [hMlen]; exact hbbX)]
    simp
  · rw [addTransformForBB_allocs, materializeAttributes_allocs,
      pushMaterialization_allocs, hXA]

/-- C6: for a tracked-and-replaceable allocation handed to
real_object_required with can_materialize set, the worth-materializing
predicate is exactly read OR bigint OR in_branch(allocating block, current
block); when it holds, a materialize transform for the allocation
targeting the consumer register is appended to the plan, recorded on the
materialization list of the allocation in this block and on the block
transformation list, and the allocation records are untouched; when it
fails, the only change is marking the allocation irreplaceable (with
transitive propagation through mark_irreplaceable); and in_branch answers
true whenever its reverse-postorder walk runs past the last basic block
without meeting the checked block. -/
theorem C6_real_object_required (g : SpeshGraph) (gs : GraphState)
    (bbIdx insId : Nat) (o : Operand) (ai : Nat) (a : Allocation)
    (hfa : (getFacts g o).peaAllocation = some ai)
    (ha : gs.allocs[ai]? = some a)
    (htr : allocationTracked gs bbIdx (some ai) = true)
    (hbb : bbIdx < gs.bbStates.length) :
    (worthMaterializing g gs bbIdx ai =
      (a.read || a.bigint || inBranch g gs a.allocatorBB bbIdx)) ∧
    (worthMaterializing g gs bbIdx ai = true →
      (∃ ext, (realObjectRequired g gs bbIdx insId o true).transforms =
        gs.transforms ++
          ⟨some ai, TransformKind.materialize insId, [MTarget.concrete o],
            some (bbIdx, ai)⟩ :: ext) ∧
      gs.transforms.length ∈
        (getAState (realObjectRequired g gs bbIdx insId o true) bbIdx
          a.index).materializations ∧
      gs.transforms.length ∈
        ((realObjectRequired g gs bbIdx insId o true).bbStates.getD bbIdx
          default).transformations ∧
      (realObjectRequired g gs bbIdx insId o true).allocs = gs.allocs) ∧
    (worthMaterializing g gs bbIdx ai = false →
      realObjectRequired g gs bbIdx insId o true =
        { gs with allocs := markIrreplaceable gs.allocs ai }) ∧
    (∀ base check : Nat,
      (∀ k, (g.bbs.getD base default).rpoIdx ≤ k → k < g.bbs.length →
        gs.rpo.getD k 0 ≠ check) →
      inBranch g gs base check = true) := by
  have hgetd : gs.allocs.getD ai default = a := by
    rw [List.getD_eq_getElem?_getD, ha, Option.getD_some]
  have hTid : (ensureUsedState gs bbIdx ai).transforms.length =
      gs.transforms.length := by
    rw [ensureUsedState_transforms]
  refine ⟨?_, ?_, ?_, ?_⟩
  · simp only [worthMaterializing, hgetd]
  · intro hw
    rw [← hgetd, ← hTid]
    simp only [realObjectRequired, hfa, htr, if_true, hw, Bool.true_and]
    refine ror_plan_spec g _ bbIdx insId _ _ _ ai gs.transforms _ gs.allocs
      ?_ ?_ ?_
    · simp [ensureUsedState_transforms]
    · show (ensureUsedState gs bbIdx ai).allocs = gs.allocs
      exact ensureUsedState_allocs gs bbIdx ai
    · show bbIdx < (ensureUsedState gs bbIdx ai).bbStates.length
      rw [ensureUsedState_bbLen]
      exact hbb
  · intro hw
    simp only [realObjectRequired, hfa, htr, if_true, hw, Bool.true_and,
      Bool.false_eq_true, if_false]
  · intro base check hk
    unfold inBranch
    exact inBranchLoop_not_found g gs base check g.bbs.length _ 0 (by omega) hk

/-- Witness for C6: in exGS6 the tracked allocation 0 has been read, so
materializing is worthwhile and real_object_required plans a materialize
transform on it targeting the consumer register. -/
theorem C6_real_object_required_witness :
    (getFacts exG6 ⟨0, 0⟩).peaAllocation = some 0 ∧
    exGS6.allocs[0]? =
      some { (default : Allocation) with
        index := 0, type := exStOk, read := true } ∧
    allocationTracked exGS6 0 (some 0) = true ∧
    0 < exGS6.bbStates.length ∧
    worthMaterializing exG6 exGS6 0 0 = true ∧
    (∃ ext, (realObjectRequired exG6 exGS6 0 0 ⟨0, 0⟩ true).transforms =
      exGS6.transforms ++
        ⟨some 0, TransformKind.materialize 0, [MTarget.concrete ⟨0, 0⟩],
          some (0, 0)⟩ :: ext) := by
  refine ⟨by decide, by decide, by decide, by decide, by decide, ?_⟩
  exact ((C6_real_object_required exG6 exGS6 0 0 ⟨0, 0⟩ 0
    { (default : Allocation) with index := 0, type := exStOk, read := true }
    (by decide) (by decide) (by decide) (by decide)).2.1 (by decide)).1

theorem zipWith_getD_mod (l1 l2 : List Nat) (j : Nat) (h1 : j < l1.length)
    (h2 : j < l2.length) :
    (List.zipWith (fun c q => (c + q) % 256) l1 l2).getD j 0 =
      (l1.getD j 0 + l2.getD j 0) % 256 := by
  rw [List.getD_eq_getElem?_getD, List.getElem?_zipWith,
    List.getElem?_eq_getElem h1, List.getElem?_eq_getElem h2]
  simp [List.getD_eq_getElem?_getD, List.getElem?_eq_getElem, h1, h2]

theorem zipWith_mod_getD_lt (l1 l2 : List Nat) (j : Nat) :
    (List.zipWith (fun c q => (c + q) % 256) l1 l2).getD j 0 < 256 := by
  by_cases h : j < (List.zipWith (fun c q => (c + q) % 256) l1 l2).length
  · have hm : j < min l1.length l2.length := by
      simpa [List.length_zipWith] using h
    rw [zipWith_getD_mod l1 l2 j (by omega) (by omega)]
    exact Nat.mod_lt _ (by norm_num)
  · rw [List.getD_eq_getElem?_getD, List.getElem?_eq_none_iff.mpr (by omega)]
    norm_num


theorem mergePreds_core (bbStates : List BBState) (i numAttrs : Nat) :
    ∀ ps : List Nat, ∀ acc : MergeAcc,
    (∀ p ∈ ps,
      ((bbStates.getD p default).allocState.getD i default).seen = true →
      ∀ u, ((bbStates.getD p default).allocState.getD i default).used = some u →
        u.length = numAttrs) →
    acc.counts.length = numAttrs →
    (∀ j, acc.counts.getD j 0 < 256) →
    (ps.foldl (mergePredStep bbStates i) acc).counts.length = numAttrs ∧
    (∀ j, (ps.foldl (mergePredStep bbStates i) acc).counts.getD j 0 < 256) ∧
    (ps.foldl (mergePredStep bbStates i) acc).applicable =
      acc.applicable + (seenPreds bbStates ps i).length ∧
    (ps.foldl (mergePredStep bbStates i) acc).seen =
      (acc.seen || !(seenPreds bbStates ps i).isEmpty) ∧
    ∀ j, j < numAttrs →
      (ps.foldl (mergePredStep bbStates i) acc).counts.getD j 0 =
        (acc.counts.getD j 0 +
          ((seenPreds bbStates ps i).map
            (fun p => usedEntry bbStates p i j)).sum) % 256 := by
  intro ps
  induction ps with
  | nil =>
    intro acc hU hlen hlt
    refine ⟨hlen, hlt, by simp [seenPreds], by simp [seenPreds], ?_⟩
    intro j hj
    simp only [List.foldl_nil, seenPreds, List.filter_nil, List.map_nil,
      List.sum_nil, Nat.add_zero]
    exact (Nat.mod_eq_of_lt (hlt j)).symm
  | cons p rest ih =>
    intro acc hU hlen hlt
    rw [List.foldl_cons]
    rcases hseen : ((bbStates.getD p default).allocState.getD i default).seen
      with _ | _
    · have hstep : mergePredStep bbStates i acc p = acc := by
        simp only [mergePredStep, hseen, Bool.false_eq_true, if_false]
      have hsp : seenPreds bbStates (p :: rest) i = seenPreds bbStates rest i := by
        simp only [seenPreds, List.filter_cons, hseen, Bool.false_eq_true,
          if_false]
      rw [hstep, hsp]
      exact ih acc (fun q hq => hU q (List.mem_cons_of_mem p hq)) hlen hlt
    · have hsp : seenPreds bbStates (p :: rest) i =
          p :: seenPreds bbStates rest i := by
        simp only [seenPreds, List.filter_cons, hseen, if_true]
      have happ2 : (mergePredStep bbStates i acc p).applicable =
          acc.applicable + 1 := by
        simp only [mergePredStep, hseen, if_true]
      have hseen2 : (mergePredStep bbStates i acc p).seen = true := by
        simp only [mergePredStep, hseen, if_true]
      rcases hu : ((bbStates.getD p default).allocState.getD i default).used
        with _ | pu
      · have hc2 : (mergePredStep bbStates i acc p).counts = acc.counts := by
          simp only [mergePredStep, hseen, if_true, hu]
        obtain ⟨l1, l2, l3, l4, l5⟩ := ih (mergePredStep bbStates i acc p)
          (fun q hq => hU q (List.mem_cons_of_mem p hq)) (by rw [hc2]; exact hlen)
          (fun j => by rw [hc2]; exact hlt j)
        refine ⟨l1, l2, ?_, ?_, ?_⟩
        · rw [l3, happ2, hsp]
          simp only [List.length_cons]
          omega
        · rw [l4, hseen2, hsp]
          simp
        · intro j hj
          rw [l5 j hj, hc2, hsp]
          simp only [List.map_cons, List.sum_cons, usedEntry, hu]
          rw [Nat.zero_add]
      · have hpul : pu.length = numAttrs :=
          hU p (List.mem_cons_self p rest) hseen pu hu
        have hc2 : (mergePredStep bbStates i acc p).counts =
            List.zipWith (fun c q => (c + q) % 256) acc.counts pu := by
          simp only [mergePredStep, hseen, if_true, hu]
        obtain ⟨l1, l2, l3, l4, l5⟩ := ih (mergePredStep bbStates i acc p)
          (fun q hq => hU q (List.mem_cons_of_mem p hq))
          (by rw [hc2]; simp [List.length_zipWith, hlen, hpul])
          (fun j => by rw [hc2]; exact zipWith_mod_getD_lt acc.counts pu j)
        refine ⟨l1, l2, ?_, ?_, ?_⟩
        · rw [l3, happ2, hsp]
          simp only [List.length_cons]
          omega
        · rw [l4, hseen2, hsp]
          simp
        · intro j hj
          rw [l5 j hj, hc2, hsp]
          simp only [List.map_cons, List.sum_cons, usedEntry, hu]
          rw [zipWith_getD_mod acc.counts pu j (by omega) (by omega),
            Nat.mod_add_mod, Nat.add_assoc]

theorem shrink_numAttrs {s r : AllocStore} (h : Shrink s r) (i : Nat) :
    getNumAttributes (r.getD i default) = getNumAttributes (s.getD i default) := by
  by_cases hi : i < s.length
  · obtain ⟨y, hy, hsh⟩ := h.2 i (s.getD i default)
      (by rw [List.getD_eq_getElem?_getD, List.getElem?_eq_getElem hi]; rfl)
    rw [List.getD_eq_getElem?_getD, hy, Option.getD_some]
    unfold getNumAttributes
    rw [hsh.2.2.1]
  · have hs : s[i]? = none := List.getElem?_eq_none_iff.mpr (by omega)
    have hr : r[i]? = none := List.getElem?_eq_none_iff.mpr (by rw [h.1]; omega)
    rw [List.getD_eq_getElem?_getD, List.getD_eq_getElem?_getD, hs, hr]

theorem setupOneAlloc_fst_shrink (bbStates : List BBState) (preds : List Nat)
    {allocs allocs2 : AllocStore} (h : Shrink allocs allocs2) (i : Nat) :
    (setupOneAlloc bbStates preds allocs2 i).1 =
      (setupOneAlloc bbStates preds allocs i).1 := by
  have hn : getNumAttributes (allocs2.getD i default) =
      getNumAttributes (allocs.getD i default) := shrink_numAttrs h i
  simp only [setupOneAlloc, hn]
  by_cases hc : (mergePreds bbStates preds i
      (getNumAttributes (allocs.getD i default))).counts.any
      (fun c => decide (c ≠ 0) && decide (c ≠ (mergePreds bbStates preds i
        (getNumAttributes (allocs.getD i default))).applicable)) = true
  · rw [if_pos hc, if_pos hc]
  · rw [if_neg hc, if_neg hc]

theorem setupAllocLoop_fst_get (bbStates : List BBState) (preds : List Nat) :
    ∀ (ks : List Nat) (allocs : AllocStore) (n : Nat),
    (setupAllocLoop bbStates preds allocs ks).1[n]? =
      (ks[n]?).map (fun k => (setupOneAlloc bbStates preds allocs k).1) := by
  intro ks
  induction ks with
  | nil => intro allocs n; simp [setupAllocLoop]
  | cons k rest ih =>
    intro allocs n
    rcases h1 : setupOneAlloc bbStates preds allocs k with ⟨st, allocs2⟩
    rcases h2 : setupAllocLoop bbStates preds allocs2 rest with ⟨sts, allocs3⟩
    have hshr : Shrink allocs allocs2 := by
      have := setupOneAlloc_shrink bbStates preds allocs k
      rw [h1] at this
      exact this
    simp only [setupAllocLoop, h1, h2]
    rcases n with _ | n
    · rw [List.getElem?_cons_zero, List.getElem?_cons_zero, Option.map_some', h1]
    · rw [List.getElem?_cons_succ, List.getElem?_cons_succ]
      have := ih allocs2 n
      rw [h2] at this
      rw [this]
      rcases rest[n]? with _ | k2
      · rfl
      · rw [Option.map_some', Option.map_some',
          setupOneAlloc_fst_shrink bbStates preds hshr k2]

theorem setupAllocLoop_marks (bbStates : List BBState) (preds : List Nat) :
    ∀ (ks : List Nat) (allocs : AllocStore) (i : Nat), i ∈ ks →
    i < allocs.length →
    (mergePreds bbStates preds i
        (getNumAttributes (allocs.getD i default))).counts.any
      (fun c => decide (c ≠ 0) && decide (c ≠ (mergePreds bbStates preds i
        (getNumAttributes (allocs.getD i default))).applicable)) = true →
    isMarked (setupAllocLoop bbStates preds allocs ks).2 i = true := by
  intro ks
  induction ks with
  | nil =>
    intro allocs i hmem
    exact absurd hmem (List.not_mem_nil i)
  | cons k rest ih =>
    intro allocs i hmem hlt hcond
    rcases h1 : setupOneAlloc bbStates preds allocs k with ⟨st, allocs2⟩
    rcases h2 : setupAllocLoop bbStates preds allocs2 rest with ⟨sts, allocs3⟩
    have hshr : Shrink allocs allocs2 := by
      have := setupOneAlloc_shrink bbStates preds allocs k
      rw [h1] at this
      exact this
    have hshr2 : Shrink allocs2 allocs3 := by
      have := setupAllocLoop_shrink bbStates preds rest allocs2
      rw [h2] at this
      exact this
    simp only [setupAllocLoop, h1, h2]
    by_cases hik : i = k
    · subst hik
      have hmark : allocs2 = markIrreplaceable allocs i := by
        have hone : (setupOneAlloc bbStates preds allocs i).2 =
            markIrreplaceable allocs i := by
          simp only [setupOneAlloc]
          rw [if_pos hcond]
        rw [h1] at hone
        exact hone
      refine shrink_marked hshr2 ?_
      rw [hmark]
      exact markIrreplaceable_marks (DepReach.refl i hlt)
    · have hmem2 : i ∈ rest := by
        rcases List.mem_cons.mp hmem with h | h
        · exact absurd h hik
        · exact h
      have hcond2 : (mergePreds bbStates preds i
          (getNumAttributes (allocs2.getD i default))).counts.any
          (fun c => decide (c ≠ 0) && decide (c ≠ (mergePreds bbStates preds i
            (getNumAttributes (allocs2.getD i default))).applicable)) = true := by
        rw [shrink_numAttrs hshr i]
        exact hcond
      have := ih allocs2 i hmem2 (by rw [hshr.1]; exact hlt) hcond2
      rw [h2] at this
      exact this

theorem replicate_getD_zero (n j : Nat) :
    (List.replicate n (0 : Nat)).getD j 0 = 0 := by
  rw [List.getD_eq_getElem?_getD, List.getElem?_replicate]
  split <;> rfl

theorem usedEntry_le_one (bbStates : List BBState) (p i j : Nat)
    (h : ∀ u, ((bbStates.getD p default).allocState.getD i default).used =
      some u → ∀ x ∈ u, x ≤ 1) :
    usedEntry bbStates p i j ≤ 1 := by
  rcases hu : ((bbStates.getD p default).allocState.getD i default).used
    with _ | u
  · simp only [usedEntry, hu]
    exact Nat.zero_le 1
  · simp only [usedEntry, hu]
    rcases hj : u[j]? with _ | x
    · rw [List.getD_eq_getElem?_getD, hj]
      exact Nat.zero_le 1
    · rw [List.getD_eq_getElem?_getD, hj]
      exact h u hu x (List.getElem?_mem hj)

theorem writeCount_le (bbStates : List BBState) (preds : List Nat) (i j : Nat)
    (h01 : ∀ p ∈ preds, ∀ u,
      ((bbStates.getD p default).allocState.getD i default).used = some u →
      ∀ x ∈ u, x ≤ 1) :
    writeCount bbStates preds i j ≤ (seenPreds bbStates preds i).length := by
  unfold writeCount
  have hb : ∀ x ∈ (seenPreds bbStates preds i).map
      (fun p => usedEntry bbStates p i j), x ≤ 1 := by
    intro x hx
    obtain ⟨p, hp, rfl⟩ := List.mem_map.mp hx
    have hp2 : p ∈ preds := by
      unfold seenPreds at hp
      exact (List.mem_filter.mp hp).1
    exact usedEntry_le_one bbStates p i j (h01 p hp2)
  have := List.sum_le_card_nsmul _ 1 hb
  simpa using this

/-- C5 (amended): at the entry of a basic block, for each tracked
allocation the merge over the predecessors that have seen it (P) counts,
per attribute, how many of them wrote it; the entry state of the block is
exactly the merged state; and provided |P| is at most 255, an attribute
counted zero times stays unwritten, one counted |P| times is normalized to
a written mark of 1, and on any intermediate count the allocation state is
dropped to seen-only (no used array, no materializations) and the
allocation is marked irreplaceable (with transitive propagation through
mark_irreplaceable).  The bound is load-bearing and missing from the
original claim: the per-attribute counters are MVMuint8 bytes accumulated
modulo 256, so with 256 or more applicable predecessors they wrap and the
claimed trichotomy fails, as the counterexample records. -/
theorem C5_setup_bb_state (gs : GraphState) (preds : List Nat) (bbIdx i : Nat)
    (hbb : bbIdx < gs.bbStates.length) (hi : i < gs.allocs.length)
    (hU : ∀ p ∈ preds, ∀ u,
      ((gs.bbStates.getD p default).allocState.getD i default).used = some u →
      u.length = getNumAttributes (gs.allocs.getD i default) ∧
      ∀ x ∈ u, x ≤ 1)
    (hP : (seenPreds gs.bbStates preds i).length ≤ 255) :
    ((setupBBState gs preds bbIdx).bbStates.getD bbIdx
        default).allocState.getD i default =
      (setupOneAlloc gs.bbStates preds gs.allocs i).1 ∧
    (mergePreds gs.bbStates preds i
        (getNumAttributes (gs.allocs.getD i default))).applicable =
      (seenPreds gs.bbStates preds i).length ∧
    (mergePreds gs.bbStates preds i
        (getNumAttributes (gs.allocs.getD i default))).seen =
      !(seenPreds gs.bbStates preds i).isEmpty ∧
    (∀ j, j < getNumAttributes (gs.allocs.getD i default) →
      (mergePreds gs.bbStates preds i
          (getNumAttributes (gs.allocs.getD i default))).counts.getD j 0 =
        writeCount gs.bbStates preds i j) ∧
    ((∀ j, j < getNumAttributes (gs.allocs.getD i default) →
        writeCount gs.bbStates preds i j = 0 ∨
        writeCount gs.bbStates preds i j =
          (seenPreds gs.bbStates preds i).length) →
      ∃ u, (setupOneAlloc gs.bbStates preds gs.allocs i).1.used = some u ∧
        ∀ j, j < getNumAttributes (gs.allocs.getD i default) →
          u.getD j 0 =
            if writeCount gs.bbStates preds i j = 0 then 0 else 1) ∧
    ((∃ j, j < getNumAttributes (gs.allocs.getD i default) ∧
        writeCount gs.bbStates preds i j ≠ 0 ∧
        writeCount gs.bbStates preds i j ≠
          (seenPreds gs.bbStates preds i).length) →
      (setupOneAlloc gs.bbStates preds gs.allocs i).1 =
        ⟨!(seenPreds gs.bbStates preds i).isEmpty, none, []⟩ ∧
      isMarked (setupBBState gs preds bbIdx).allocs i = true) := by
  have hM : mergePreds gs.bbStates preds i
      (getNumAttributes (gs.allocs.getD i default)) =
      preds.foldl (mergePredStep gs.bbStates i)
        ⟨List.replicate (getNumAttributes (gs.allocs.getD i default)) 0,
          [], 0, false, 0⟩ := rfl
  obtain ⟨c1, c2, c3, c4, c5⟩ := mergePreds_core gs.bbStates i
    (getNumAttributes (gs.allocs.getD i default)) preds
    ⟨List.replicate (getNumAttributes (gs.allocs.getD i default)) 0,
      [], 0, false, 0⟩
    (fun p hp _h u hu => (hU p hp u hu).1)
    (by simp)
    (fun j => by simp only [replicate_getD_zero]; omega)
  have hwcle : ∀ j, writeCount gs.bbStates preds i j ≤
      (seenPreds gs.bbStates preds i).length :=
    fun j => writeCount_le gs.bbStates preds i j
      (fun p hp u hu => (hU p hp u hu).2)
  have c1m : (mergePreds gs.bbStates preds i
      (getNumAttributes (gs.allocs.getD i default))).counts.length =
      getNumAttributes (gs.allocs.getD i default) := by
    rw [hM]; exact c1
  have c3m : (mergePreds gs.bbStates preds i
      (getNumAttributes (gs.allocs.getD i default))).applicable =
      (seenPreds gs.bbStates preds i).length := by
    rw [hM, c3]
    simp
  have c4m : (mergePreds gs.bbStates preds i
      (getNumAttributes (gs.allocs.getD i default))).seen =
      !(seenPreds gs.bbStates preds i).isEmpty := by
    rw [hM, c4]
    rfl
  have c5m : ∀ j, j < getNumAttributes (gs.allocs.getD i default) →
      (mergePreds gs.bbStates preds i
        (getNumAttributes (gs.allocs.getD i default))).counts.getD j 0 =
      writeCount gs.bbStates preds i j := by
    intro j hj
    rw [hM, c5 j hj, replicate_getD_zero, Nat.zero_add]
    exact Nat.mod_eq_of_lt (by have := hwcle j; unfold writeCount at this; omega)
  have hentry : ((setupBBState gs preds bbIdx).bbStates.getD bbIdx
      default).allocState.getD i default =
      (setupOneAlloc gs.bbStates preds gs.allocs i).1 := by
    rcases hloop : setupAllocLoop gs.bbStates preds gs.allocs
        (List.range gs.allocs.length) with ⟨sts, allocs2⟩
    have hsts : sts[i]? = some ((setupOneAlloc gs.bbStates preds gs.allocs
        i).1) := by
      have := setupAllocLoop_fst_get gs.bbStates preds
        (List.range gs.allocs.length) gs.allocs i
      rw [hloop, List.getElem?_range hi] at this
      exact this
    simp only [setupBBState, hloop]
    have hsetD : ∀ (l : List BBState) (n : Nat) (a d : BBState),
        n < l.length → (l.set n a).getD n d = a := by
      intro l n a d h
      rw [List.getD_eq_getElem?_getD, List.getElem?_set_self h,
        Option.getD_some]
    rw [hsetD _ _ _ _ hbb]
    show sts.getD i default = (setupOneAlloc gs.bbStates preds gs.allocs i).1
    rw [List.getD_eq_getElem?_getD, hsts, Option.getD_some]
  refine ⟨hentry, c3m, c4m, c5m, ?_, ?_⟩
  · intro hcons
    have hany : (mergePreds gs.bbStates preds i
        (getNumAttributes (gs.allocs.getD i default))).counts.any
        (fun c => decide (c ≠ 0) && decide (c ≠ (mergePreds gs.bbStates preds
          i (getNumAttributes (gs.allocs.getD i default))).applicable)) =
        false := by
      rcases hany : (mergePreds gs.bbStates preds i
          (getNumAttributes (gs.allocs.getD i default))).counts.any
          (fun c => decide (c ≠ 0) && decide (c ≠ (mergePreds gs.bbStates
            preds i (getNumAttributes
              (gs.allocs.getD i default))).applicable)) with _ | _
      · rfl
      · exfalso
        obtain ⟨c, hcmem, hcpred⟩ := List.any_eq_true.mp hany
        obtain ⟨j, hjlen, hcj⟩ := List.mem_iff_getElem.mp hcmem
        have hjA : j < getNumAttributes (gs.allocs.getD i default) := by
          rw [c1m] at hjlen
          exact hjlen
        have hgd : (mergePreds gs.bbStates preds i
            (getNumAttributes (gs.allocs.getD i default))).counts.getD j 0 =
            c := by
          rw [List.getD_eq_getElem?_getD, List.getElem?_eq_getElem hjlen,
            Option.getD_some, hcj]
        have hcval : c = writeCount gs.bbStates preds i j := by
          rw [← hgd, c5m j hjA]
        simp only [Bool.and_eq_true, decide_eq_true_eq, c3m, hcval] at hcpred
        rcases hcons j hjA with h0 | hlen
        · exact hcpred.1 h0
        · exact hcpred.2 hlen
    refine ⟨(mergePreds gs.bbStates preds i
        (getNumAttributes (gs.allocs.getD i default))).counts.map
        (fun c => if c = 0 then 0 else 1), ?_, ?_⟩
    · simp only [setupOneAlloc]
      rw [if_neg (by rw [hany]; exact Bool.false_ne_true)]
    · intro j hj
      have hmap : ((mergePreds gs.bbStates preds i
          (getNumAttributes (gs.allocs.getD i default))).counts.map
          (fun c => if c = 0 then 0 else 1)).getD j 0 =
          if (mergePreds gs.bbStates preds i
              (getNumAttributes (gs.allocs.getD i default))).counts.getD j 0 =
            0 then 0 else 1 := by
        simpa using List.getD_map (mergePreds gs.bbStates preds i
          (getNumAttributes (gs.allocs.getD i default))).counts 0
          (fun c => if c = 0 then 0 else 1)
      rw [hmap, c5m j hj]
  · intro hinc
    obtain ⟨j, hjA, hj0, hjP⟩ := hinc
    have hjlen : j < (mergePreds gs.bbStates preds i
        (getNumAttributes (gs.allocs.getD i default))).counts.length := by
      rw [c1m]
      exact hjA
    have hgd2 : (mergePreds gs.bbStates preds i
        (getNumAttributes (gs.allocs.getD i default))).counts[j]? =
        some ((mergePreds gs.bbStates preds i
          (getNumAttributes (gs.allocs.getD i default))).counts.getD j 0) := by
      rcases hq : (mergePreds gs.bbStates preds i
          (getNumAttributes (gs.allocs.getD i default))).counts[j]? with _ | v
      · rw [List.getElem?_eq_none_iff] at hq
        omega
      · rw [List.getD_eq_getElem?_getD, hq]
        rfl
    have hmemj : (mergePreds gs.bbStates preds i
        (getNumAttributes (gs.allocs.getD i default))).counts[j]? =
        some (writeCount gs.bbStates preds i j) := by
      rw [hgd2, c5m j hjA]
    have hany : (mergePreds gs.bbStates preds i
        (getNumAttributes (gs.allocs.getD i default))).counts.any
        (fun c => decide (c ≠ 0) && decide (c ≠ (mergePreds gs.bbStates preds
          i (getNumAttributes (gs.allocs.getD i default))).applicable)) =
        true := by
      refine List.any_eq_true.mpr ⟨writeCount gs.bbStates preds i j,
        List.getElem?_mem hmemj, ?_⟩
      simp only [Bool.and_eq_true, decide_eq_true_eq, c3m]
      exact ⟨hj0, hjP⟩
    constructor
    · simp only [setupOneAlloc]
      rw [if_pos hany, c4m]
    · rcases hloop : setupAllocLoop gs.bbStates preds gs.allocs
          (List.range gs.allocs.length) with ⟨sts, allocs2⟩
      have := setupAllocLoop_marks gs.bbStates preds
        (List.range gs.allocs.length) gs.allocs i
        (List.mem_range.mpr hi) hi hany
      rw [hloop] at this
      simp only [setupBBState, hloop]
      exact this

/-- Witness for C5: in exGS5 one predecessor wrote the attribute and the
other did not, so the write count is 1 of 2; the merge drops the state to
seen-only and the allocation gets marked irreplaceable. -/
theorem C5_setup_bb_state_witness :
    2 < exGS5.bbStates.length ∧
    0 < exGS5.allocs.length ∧
    (seenPreds exGS5.bbStates [0, 1] 0).length ≤ 255 ∧
    writeCount exGS5.bbStates [0, 1] 0 0 = 1 ∧
    (setupOneAlloc exGS5.bbStates [0, 1] exGS5.allocs 0).1 =
      ⟨true, none, []⟩ ∧
    isMarked (setupBBState exGS5 [0, 1] 2).allocs 0 = true := by
  have hU : ∀ p ∈ ([0, 1] : List Nat), ∀ u,
      ((exGS5.bbStates.getD p default).allocState.getD 0 default).used =
        some u →
      u.length = getNumAttributes (exGS5.allocs.getD 0 default) ∧
      ∀ x ∈ u, x ≤ 1 := by
    intro p hp u hu
    rcases List.mem_cons.mp hp with rfl | hp2
    · rw [show ((exGS5.bbStates.getD 0 default).allocState.getD 0
        default).used = some ([1] : List Nat) from rfl] at hu
      injection hu with h
      subst h
      exact ⟨by decide, by decide⟩
    · rcases List.mem_cons.mp hp2 with rfl | hp3
      · rw [show ((exGS5.bbStates.getD 1 default).allocState.getD 0
          default).used = some ([0] : List Nat) from rfl] at hu
        injection hu with h
        subst h
        exact ⟨by decide, by decide⟩
      · exact absurd hp3 (List.not_mem_nil p)
  have h := C5_setup_bb_state exGS5 [0, 1] 2 0 (by decide) (by decide) hU
    (by decide)
  have h6 := h.2.2.2.2.2 ⟨0, by decide, by decide, by decide⟩
  refine ⟨by decide, by decide, by decide, by decide, ?_, h6.2⟩
  rw [h6.1]
  decide

/-- Counterexample to C5 as stated: with 256 predecessors that have all
seen the allocation and all written its single attribute, the write count
equals |P|, so the claim requires the attribute to come out written
(normalized to 1); but the MVMuint8 counter wraps to 0, the merge records
the attribute as unwritten, and the allocation is not marked irreplaceable
either. -/
theorem C5_setup_bb_state_counterexample :
    (seenPreds exGS5w.bbStates (List.range 256) 0).length = 256 ∧
    writeCount exGS5w.bbStates (List.range 256) 0 0 =
      (seenPreds exGS5w.bbStates (List.range 256) 0).length ∧
    (setupOneAlloc exGS5w.bbStates (List.range 256) exGS5w.allocs 0).1.used =
      some [0] ∧
    (setupOneAlloc exGS5w.bbStates (List.range 256) exGS5w.allocs 0).2 =
      exGS5w.allocs := by
  refine ⟨by decide, by decide, by decide, by decide⟩

theorem sameShape_refl (g : SpeshGraph) : SameShape g g :=
  ⟨rfl, rfl, rfl, rfl, rfl, rfl, rfl, rfl⟩

theorem sameShape_trans {g1 g2 g3 : SpeshGraph} (h1 : SameShape g1 g2)
    (h2 : SameShape g2 g3) : SameShape g1 g3 := by
  obtain ⟨a1, b1, c1, d1, e1, f1, i1, j1⟩ := h1
  obtain ⟨a2, b2, c2, d2, e2, f2, i2, j2⟩ := h2
  exact ⟨a2.trans a1, b2.trans b1, c2.trans c1, d2.trans d1, e2.trans e1,
    f2.trans f1, i2.trans i1, j2.trans j1⟩

theorem sameShape_setFacts (g : SpeshGraph) (o : Operand) (f : Facts) :
    SameShape g (setFacts g o f) :=
  ⟨rfl, rfl, rfl, rfl, rfl, rfl, rfl, rfl⟩

theorem analyzeIns_sameShape (g : SpeshGraph) (gs : GraphState) (bbIdx : Nat)
    (node : InsNode) (found : Nat) :
    SameShape g ((analyzeIns g gs bbIdx node found).2.2) := by
  rcases node with ⟨nid, ins⟩
  cases ins with
  | sp_fastcreate dst size sslot =>
    rcases htt : tryTrackAllocation (handleMaterializedUsages g gs bbIdx
        (readOperands (Ins.sp_fastcreate dst size sslot))) bbIdx nid dst
        (g.speshSlots.getD sslot default) with ⟨ro, gs2⟩
    rcases ro with _ | ai
    · simp only [analyzeIns, htt]
      exact sameShape_refl g
    · simp only [analyzeIns, htt]
      exact sameShape_setFacts _ _ _
  | sp_materialize_bi dst size sslot offset src cacheIdx =>
    rcases htt : tryTrackAllocation (handleMaterializedUsages g gs bbIdx
        (readOperands (Ins.sp_materialize_bi dst size sslot offset src
          cacheIdx))) bbIdx nid dst (g.speshSlots.getD sslot default)
      with ⟨ro, gs2⟩
    rcases ro with _ | ai
    · simp only [analyzeIns, htt]
      exact sameShape_refl g
    · simp only [analyzeIns, htt]
      exact sameShape_setFacts _ _ _
  | set dst src =>
    rcases hfa : (getFacts g src).peaAllocation with _ | ai
    · simp only [analyzeIns, hfa, allocationTracked, Bool.false_eq_true,
        if_false]
      exact sameShape_refl g
    · rcases htr : allocationTracked (handleMaterializedUsages g gs bbIdx
          (readOperands (Ins.set dst src))) bbIdx (some ai) with _ | _
      · simp only [analyzeIns, hfa, htr, Bool.false_eq_true, if_false]
        exact sameShape_refl g
      · simp only [analyzeIns, hfa, htr, if_true]
        exact sameShape_setFacts _ _ _
  | sp_bind p6o objBind kind target offsetLit src =>
    rcases hfa : (getFacts g target).peaAllocation with _ | ai
    · cases objBind with
      | false =>
        simp only [analyzeIns, hfa, allocationTracked, Bool.false_eq_true,
          if_false]
        exact sameShape_refl g
      | true =>
        simp only [analyzeIns, hfa, allocationTracked, Bool.false_eq_true,
          if_false]
        exact sameShape_refl g
    · rcases htr : allocationTracked (handleMaterializedUsages g gs bbIdx
          (readOperands (Ins.sp_bind p6o objBind kind target offsetLit src)))
          bbIdx (some ai) with _ | _
      · cases objBind with
        | false =>
          simp only [analyzeIns, hfa, htr, Bool.false_eq_true, if_false]
          exact sameShape_refl g
        | true =>
          simp only [analyzeIns, hfa, htr, Bool.false_eq_true, if_false]
          exact sameShape_refl g
      · cases objBind with
        | false =>
          simp only [analyzeIns, hfa, htr, if_true, Bool.false_eq_true,
            if_false]
          exact sameShape_refl g
        | true =>
          rcases hbs : bindObjShadow (handleMaterializedUsages g gs bbIdx
              (readOperands (Ins.sp_bind p6o true kind target offsetLit src)))
              bbIdx
              (attributeOffsetToReg ((handleMaterializedUsages g gs bbIdx
                (readOperands (Ins.sp_bind p6o true kind target offsetLit
                  src))).allocs.getD ai default)
                (if p6o then offsetLit else offsetLit - mvmObjectSize)) ai
              ((handleMaterializedUsages g gs bbIdx
                (readOperands (Ins.sp_bind p6o true kind target offsetLit
                  src))).allocs.getD ai default)
              (getFacts g src) with ⟨gs2, ta⟩
          simp only [analyzeIns, hfa, htr, if_true, hbs]
          exact sameShape_refl g
  | argIns op reads =>
    simp only [analyzeIns]
    exact sameShape_refl g
  | otherIns writes reads =>
    simp only [analyzeIns]
    exact sameShape_refl g

theorem analyzeInsList_sameShape (bbIdx : Nat) :
    ∀ (nodes : List InsNode) (found : Nat) (gs : GraphState) (g : SpeshGraph),
    SameShape g ((analyzeInsList bbIdx nodes found gs g).2.2) := by
  intro nodes
  induction nodes with
  | nil =>
    intro found gs g
    exact sameShape_refl g
  | cons node rest ih =>
    intro found gs g
    rcases hstep : analyzeIns g gs bbIdx node found with ⟨f2, gs2, g2⟩
    have h1 : SameShape g g2 := by
      have := analyzeIns_sameShape g gs bbIdx node found
      rw [hstep] at this
      exact this
    simp only [analyzeInsList, hstep]
    exact sameShape_trans h1 (ih f2 gs2 g2)

theorem analyzeLoop_sameShape (n : Nat) (rpo : List Nat) :
    ∀ (fuel : Nat) (i : Nat) (seen : List Bool) (found : Nat)
      (gs : GraphState) (g : SpeshGraph), fuel = n - i →
      SameShape g ((analyzeLoop n rpo i seen found gs g).2.2) := by
  intro fuel
  induction fuel with
  | zero =>
    intro i seen found gs g hfuel
    rw [analyzeLoop]
    have : ¬ i < n := by omega
    simp only [this, dif_neg, not_false_iff]
    exact sameShape_refl g
  | succ f ih =>
    intro i seen found gs g hfuel
    rw [analyzeLoop]
    by_cases hlt : i < n
    · simp only [hlt, dif_pos]
      set bbIdx := rpo.getD i 0 with hbbIdx
      set bb := g.bbs.getD bbIdx default with hbb
      by_cases habort : bb.preds.any
          (fun p => !(seen.getD (g.bbs.getD p default).rpoIdx false))
      · simp only [habort, if_true]
        exact sameShape_refl g
      · simp only [habort, if_false]
        rcases h1 : analyzeInsList bbIdx bb.instructions found
            (setupBBState gs bb.preds bbIdx) g with ⟨found2, gs2, g2⟩
        have hg2 : SameShape g g2 := by
          have := analyzeInsList_sameShape bbIdx bb.instructions found
            (setupBBState gs bb.preds bbIdx) g
          rw [h1] at this
          exact this
        simp only [h1]
        exact sameShape_trans hg2
          (ih (i + 1) (seen.set bb.rpoIdx true) found2 gs2 g2 (by omega))
    · simp only [hlt, dif_neg, not_false_iff]
      exact sameShape_refl g

/-- C2 (amended): the analysis phase never mutates the graph outside the
per-register facts: the basic blocks and their instructions, the reverse
postorder, the spesh slots, the version and register counters, and the two
deopt side tables all come out of analyze unchanged.  The original claim is
stronger and false: analyze does write the authoritative per-register facts
(the pea.allocation field and copied resolved facts), as the counterexample
records. -/
theorem C2_analysis_frame (g : SpeshGraph) (gs : GraphState) :
    SameShape g (analyze g gs).2.2 := by
  unfold analyze
  rcases hr : analyzeLoop g.bbs.length g.rpo 0
      (List.replicate g.bbs.length false) 0 { gs with rpo := g.rpo } g
    with ⟨found, gs2, g2⟩
  have := analyzeLoop_sameShape g.bbs.length g.rpo (g.bbs.length - 0) 0
    (List.replicate g.bbs.length false) 0 { gs with rpo := g.rpo } g rfl
  rw [hr] at this
  simp only [hr]
  exact this

/-- Counterexample to C2 as stated: analyzing a single trackable
sp_fastcreate already rewrites the canonical per-register facts (the
pea.allocation field of the destination register). -/
theorem C2_analysis_frame_counterexample :
    ((analyzeIns exG1 (initGS exG1) 0 ⟨0, Ins.sp_fastcreate ⟨0, 0⟩ 16 0⟩
      0).2.2).facts ≠ exG1.facts := by
  decide

theorem analyzeLoop_abort (n : Nat) (rpo : List Nat) (bbs : List BasicBlock)
    (hrpo : ∀ k, k < n → (bbs.getD (rpo.getD k 0) default).rpoIdx = k) :
    ∀ (fuel i : Nat) (seen : List Bool) (found : Nat) (gs : GraphState)
      (g : SpeshGraph), fuel = n - i →
    g.bbs = bbs →
    seen.length = n →
    (∀ k, seen.getD k false = true ↔ k < i) →
    (∃ j, i ≤ j ∧ j < n ∧
      (bbs.getD (rpo.getD j 0) default).preds.any
        (fun p => decide (j ≤ (bbs.getD p default).rpoIdx)) = true) →
    (analyzeLoop n rpo i seen found gs g).1 = 0 := by
  intro fuel
  induction fuel with
  | zero =>
    intro i seen found gs g hfuel hgbbs hslen hmask hwit
    obtain ⟨j, hij, hjn, hjany⟩ := hwit
    omega
  | succ f ih =>
    intro i seen found gs g hfuel hgbbs hslen hmask hwit
    obtain ⟨j, hij, hjn, hjany⟩ := hwit
    have hlt : i < n := by omega
    rw [analyzeLoop]
    simp only [hlt, dif_pos]
    set bbIdx := rpo.getD i 0 with hbbIdx
    set bb := g.bbs.getD bbIdx default with hbb
    by_cases habort : bb.preds.any
        (fun p => !(seen.getD (g.bbs.getD p default).rpoIdx false))
    · simp only [habort, if_true]
    · simp only [habort, if_false]
      have hpred : ∀ p ∈ bb.preds,
          (g.bbs.getD p default).rpoIdx < i := by
        intro p hp
        have hanyf : bb.preds.any
            (fun p => !(seen.getD (g.bbs.getD p default).rpoIdx false)) =
            false := by
          simpa using habort
        have hfalse := List.any_eq_false.mp hanyf p hp
        have hseen : seen.getD (g.bbs.getD p default).rpoIdx false = true := by
          simpa using hfalse
        exact (hmask _).mp hseen
      have hji : ¬ j = i := by
        intro hji
        subst hji
        obtain ⟨p, hp, hple⟩ := List.any_eq_true.mp hjany
        have h1 : (bbs.getD p default).rpoIdx < j := by
          have := hpred p (by rw [hbb, hgbbs, hbbIdx]; exact hp)
          rw [hgbbs] at this
          exact this
        simp only [decide_eq_true_eq] at hple
        omega
      rcases h1 : analyzeInsList bbIdx bb.instructions found
          (setupBBState gs bb.preds bbIdx) g with ⟨found2, gs2, g2⟩
      have hg2 : SameShape g g2 := by
        have := analyzeInsList_sameShape bbIdx bb.instructions found
          (setupBBState gs bb.preds bbIdx) g
        rw [h1] at this
        exact this
      simp only [h1]
      have hrpoI : bb.rpoIdx = i := by
        rw [hbb, hgbbs, hbbIdx]
        exact hrpo i hlt
      refine ih (i + 1) (seen.set bb.rpoIdx true) found2 gs2 g2 (by omega)
        (hg2.1.trans hgbbs) (by simp [hslen]) ?_ ⟨j, by omega, hjn, hjany⟩
      intro k
      rw [hrpoI]
      by_cases hk : k = i
      · subst hk
        rw [List.getD_eq_getElem?_getD,
          List.getElem?_set_self (by rw [hslen]; exact hlt)]
        simp
      · rw [List.getD_eq_getElem?_getD, List.getElem?_set_ne (fun h => hk h.symm),
          ← List.getD_eq_getElem?_getD, hmask k]
        omega

/-- C1 (amended): on a graph whose reverse postorder is consistent (the
block at walk position k carries rpo index k) and which contains a back
edge, the pass aborts: analyze reports 0 replaceable, MVM_spesh_pea applies
no transformation (it returns the analysis graph untouched by the
transformer), and everything outside the per-register facts — blocks,
instructions, reverse postorder, spesh slots, counters, and both deopt
side tables — is unmodified.  The original claim additionally asserts the
whole SSA graph is unmodified; that part is false, since the analysis
already performed before the back edge is reached writes per-register
facts, as the counterexample records. -/
theorem C1_backedge_abort (g : SpeshGraph)
    (hrpo : ∀ k, k < g.bbs.length →
      (g.bbs.getD (g.rpo.getD k 0) default).rpoIdx = k)
    (hbe : hasBackEdge g = true) :
    (analyze g (initGS g)).1 = 0 ∧
    MVM_spesh_pea g = (analyze g (initGS g)).2.2 ∧
    SameShape g (analyze g (initGS g)).2.2 := by
  have habort : (analyze g (initGS g)).1 = 0 := by
    unfold analyze
    rcases hr : analyzeLoop g.bbs.length g.rpo 0
        (List.replicate g.bbs.length false) 0
        { initGS g with rpo := g.rpo } g with ⟨found, gs2, g2⟩
    have hwit : ∃ j, 0 ≤ j ∧ j < g.bbs.length ∧
        (g.bbs.getD (g.rpo.getD j 0) default).preds.any
          (fun p => decide (j ≤ (g.bbs.getD p default).rpoIdx)) = true := by
      unfold hasBackEdge at hbe
      obtain ⟨jj, hjj, hin⟩ := List.any_eq_true.mp hbe
      exact ⟨jj, Nat.zero_le jj, List.mem_range.mp hjj, hin⟩
    have habt := analyzeLoop_abort g.bbs.length g.rpo g.bbs hrpo
      (g.bbs.length - 0) 0 (List.replicate g.bbs.length false) 0
      { initGS g with rpo := g.rpo } g rfl rfl (by simp)
      (fun k => by
        rw [List.getD_eq_getElem?_getD, List.getElem?_replicate]
        split <;> simp) hwit
    rw [hr] at habt
    simp only [hr]
    exact habt
  refine ⟨habort, ?_, ?_⟩
  · rcases hana : analyze g (initGS g) with ⟨found, gs2, g2⟩
    have hf : found = 0 := by
      rw [hana] at habort
      exact habort
    subst hf
    simp only [MVM_spesh_pea, hana]
    simp
  · unfold analyze
    rcases hr : analyzeLoop g.bbs.length g.rpo 0
        (List.replicate g.bbs.length false) 0
        { initGS g with rpo := g.rpo } g with ⟨found, gs2, g2⟩
    have hss := analyzeLoop_sameShape g.bbs.length g.rpo (g.bbs.length - 0) 0
      (List.replicate g.bbs.length false) 0 { initGS g with rpo := g.rpo } g
      rfl
    rw [hr] at hss
    simp only [hr]
    exact hss

theorem analyzeLoop_exG0_step2 :
    analyzeLoop 3 [0, 1, 2] 1 ((List.replicate 3 false).set 0 true)
      (analyzeInsList 0 [⟨0, Ins.sp_fastcreate ⟨0, 0⟩ 16 0⟩] 0
        (setupBBState { initGS exG0 with rpo := exG0.rpo } [] 0) exG0).1
      (analyzeInsList 0 [⟨0, Ins.sp_fastcreate ⟨0, 0⟩ 16 0⟩] 0
        (setupBBState { initGS exG0 with rpo := exG0.rpo } [] 0) exG0).2.1
      (analyzeInsList 0 [⟨0, Ins.sp_fastcreate ⟨0, 0⟩ 16 0⟩] 0
        (setupBBState { initGS exG0 with rpo := exG0.rpo } [] 0) exG0).2.2 =
    (0, (analyzeInsList 0 [⟨0, Ins.sp_fastcreate ⟨0, 0⟩ 16 0⟩] 0
        (setupBBState { initGS exG0 with rpo := exG0.rpo } [] 0) exG0).2.1, (analyzeInsList 0 [⟨0, Ins.sp_fastcreate ⟨0, 0⟩ 16 0⟩] 0
        (setupBBState { initGS exG0 with rpo := exG0.rpo } [] 0) exG0).2.2) := by
  rw [analyzeLoop]
  rfl

/-- Witness for C1: exG0 has a consistent reverse postorder and a back
edge, and the pass aborts on it with 0 replaceable, leaving everything
outside the per-register facts unmodified. -/
theorem C1_backedge_abort_witness :
    (∀ k, k < exG0.bbs.length →
      (exG0.bbs.getD (exG0.rpo.getD k 0) default).rpoIdx = k) ∧
    hasBackEdge exG0 = true ∧
    ((analyze exG0 (initGS exG0)).1 = 0 ∧
      MVM_spesh_pea exG0 = (analyze exG0 (initGS exG0)).2.2 ∧
      SameShape exG0 (analyze exG0 (initGS exG0)).2.2) :=
  ⟨by decide, by decide, C1_backedge_abort exG0 (by decide) (by decide)⟩

/-- Counterexample to C1 as stated: on the back-edge graph exG0 the pass
does abort with 0 replaceable, yet the SSA graph is not left unmodified —
the per-register facts written while analyzing the first block (before the
back edge is reached) remain in the returned graph. -/
theorem C1_backedge_abort_counterexample :
    hasBackEdge exG0 = true ∧
    (analyze exG0 (initGS exG0)).1 = 0 ∧
    (analyze exG0 (initGS exG0)).2.2.facts ≠ exG0.facts := by
  have hr : analyzeLoop exG0.bbs.length exG0.rpo 0
      (List.replicate exG0.bbs.length false) 0
      { initGS exG0 with rpo := exG0.rpo } exG0 =
      (0, (analyzeInsList 0 [⟨0, Ins.sp_fastcreate ⟨0, 0⟩ 16 0⟩] 0
        (setupBBState { initGS exG0 with rpo := exG0.rpo } [] 0) exG0).2.1, (analyzeInsList 0 [⟨0, Ins.sp_fastcreate ⟨0, 0⟩ 16 0⟩] 0
        (setupBBState { initGS exG0 with rpo := exG0.rpo } [] 0) exG0).2.2) := by
    rw [show (exG0.bbs.length : Nat) = 3 from rfl,
      show exG0.rpo = [0, 1, 2] from rfl]
    rw [analyzeLoop]
    refine Eq.trans ?_ analyzeLoop_exG0_step2
    rfl
  refine ⟨by decide, ?_, ?_⟩
  · show (analyzeLoop exG0.bbs.length exG0.rpo 0
      (List.replicate exG0.bbs.length false) 0
      { initGS exG0 with rpo := exG0.rpo } exG0).1 = 0
    rw [hr]
  · show (analyzeLoop exG0.bbs.length exG0.rpo 0
      (List.replicate exG0.bbs.length false) 0
      { initGS exG0 with rpo := exG0.rpo } exG0).2.2.facts ≠ exG0.facts
    rw [hr]
    decide

end MoarPEA
